import Mathlib

/-!
Verification development for the floor-plan relaxation script
(`scripts/relax_floorplan.py`).

The script is embedded shallowly over exact rationals:

* Python floats are modelled as `ℚ` (exact real arithmetic, the usual
  idealization of the script's decimal literals);
* `math.sqrt` is an explicit function parameter `rsqrt : ℚ → ℚ`, since exact
  square roots do not exist in `ℚ`; theorems that depend on `sqrt` behaving
  like a square root on the values they touch take that as a hypothesis;
* the `random.Random(42)` generator is an explicit stream `rng : ℕ → ℚ` of
  successive `random()` draws (each in `[0, 1)`), consumed in order through a
  threaded counter, mirroring the single shared generator of the script;
* fallible operations (`SystemExit`, `KeyError`, failing `float(...)`
  conversions) return `Except String`;
* Python dicts keyed by node id are association lists updated in place
  (`upsert`), preserving insertion order exactly as CPython dicts do.
-/

namespace VirtualMap

/-- 2-D vector of exact rationals, the model of a `[x, y]` float pair. -/
abbrev Vec : Type := ℚ × ℚ

/-- A value stored in a position field `x`/`y`: either a value that Python's
`float(...)` converts successfully (a number, numeric string or bool), carried
as the exact rational it denotes, or a value on which `float(...)` raises. -/
inductive CoordVal : Type
  | fnum (q : ℚ)
  | nonnum
deriving DecidableEq

/-- The `position` object of a node: optional `x` and `y` fields. -/
structure PosObj : Type where
  x : Option CoordVal
  y : Option CoordVal
deriving DecidableEq

/-- An entry of a node's `connections` list: a string, or a non-string value
(which `build_edges` skips via its `isinstance` check). -/
inductive ConnEntry : Type
  | str (s : String)
  | nonstr
deriving DecidableEq

/-- A node record, restricted to the fields the script reads or writes. -/
structure Node : Type where
  id : String
  position : Option PosObj
  connections : List ConnEntry
deriving DecidableEq

/-- `tuple(sorted((a, b)))` on two strings. -/
def sortPair (a b : String) : String × String :=
  if a ≤ b then (a, b) else (b, a)

/-- `build_edges`: iterate the nodes, and for each string entry of the
`connections` list insert the sorted `(id, target)` pair into the edge set;
non-string entries are skipped. -/
def build_edges (nodes : List Node) : Finset (String × String) :=
  nodes.foldl (fun edges node =>
    node.connections.foldl (fun edges target =>
      match target with
      | .str s => insert (sortPair node.id s) edges
      | .nonstr => edges) edges) ∅

/-- The edges collected in first-insertion order, duplicates included. -/
def buildEdgesList (nodes : List Node) : List (String × String) :=
  nodes.foldl (fun acc node =>
    node.connections.foldl (fun acc target =>
      match target with
      | .str s => acc ++ [sortPair node.id s]
      | .nonstr => acc) acc) []

/-- The edge set as a duplicate-free list, used by the iteration loop.  The
CPython `set` iterates its elements in an unspecified order; in exact
arithmetic the accumulated displacement is a sum over the edges and hence
independent of that order, so the model fixes one duplicate-free enumeration. -/
def edgeIterList (nodes : List Node) : List (String × String) :=
  (buildEdgesList nodes).dedup

/-- `float(value)` on an optional position field, with the `0.5` default of
`pos.get("x", 0.5)` when the field is missing. -/
def toCoord : Option CoordVal → Except String ℚ
  | none => .ok (1/2)
  | some (.fnum q) => .ok q
  | some .nonnum => .error ("could not convert value to float")

/-- In-place dict write `positions[key] = v`: replaces the value at an existing
key, keeping its insertion position, or appends a fresh key at the end. -/
def upsert (key : String) (v : Vec) : List (String × Vec) → List (String × Vec)
  | [] => [(key, v)]
  | e :: rest => if e.1 = key then (key, v) :: rest else e :: upsert key v rest

/-- The initialization loop: for each node draw two jitters, convert the stored
normalized coordinates (defaulting to `0.5`), and store the internal-frame
position.  `c` is the index of the next unconsumed `rng` draw. -/
def initPositions (W H : ℚ) (rng : ℕ → ℚ) :
    List Node → ℕ → List (String × Vec) → Except String (List (String × Vec) × ℕ)
  | [], c, acc => .ok (acc, c)
  | node :: rest, c, acc =>
      let pos := node.position.getD ⟨none, none⟩
      let jx := (rng c - 1/2) * W * (1/20)
      let jy := (rng (c+1) - 1/2) * H * (1/20)
      match toCoord pos.x, toCoord pos.y with
      | .ok x, .ok y =>
          initPositions W H rng rest (c+2)
            (upsert node.id ((x - 1/2) * W + jx, (y - 1/2) * H + jy) acc)
      | .error e, _ => .error e
      | .ok _, .error e => .error e

/-- `1e-9`, the epsilon guard of the distance computations. -/
def eps9 : ℚ := 1/1000000000

/-- `1e-4`, the temperature threshold of the early-exit test. -/
def theta : ℚ := 1/10000

/-- Repulsion contribution of one node pair (Fruchterman-Reingold):
`dist = sqrt(dx² + dy² + 1e-9)` (epsilon inside the square root), force
`k²/dist`, directed along `(dx, dy)`. -/
def repContrib (k : ℚ) (rsqrt : ℚ → ℚ) (sp tp : Vec) : Vec :=
  let dx := sp.1 - tp.1
  let dy := sp.2 - tp.2
  let dist := rsqrt (dx * dx + dy * dy + eps9)
  let force := (k * k) / dist
  ((dx / dist) * force, (dy / dist) * force)

/-- One step of the repulsion double loop: add the pair's contribution to the
source's displacement and subtract it from the target's. -/
def applyRep (k : ℚ) (rsqrt : ℚ → ℚ) (d : String → Vec)
    (pr : (String × Vec) × (String × Vec)) : String → Vec :=
  let f := repContrib k rsqrt pr.1.2 pr.2.2
  let d1 := Function.update d pr.1.1 (d pr.1.1 + f)
  Function.update d1 pr.2.1 (d1 pr.2.1 - f)

/-- The ordered pairs visited by `for index, source in enumerate(items): for
target in items[index + 1:]`. -/
def pairsUpper {α : Type} : List α → List (α × α)
  | [] => []
  | x :: xs => (xs.map fun y => (x, y)) ++ pairsUpper xs

/-- Attraction contribution of one edge: `dist = sqrt(dx² + dy²) + 1e-9`
(epsilon added after the square root), force `dist²/k`, directed along
`(dx, dy)`. -/
def attrContrib (k : ℚ) (rsqrt : ℚ → ℚ) (sp tp : Vec) : Vec :=
  let dx := sp.1 - tp.1
  let dy := sp.2 - tp.2
  let dist := rsqrt (dx * dx + dy * dy) + eps9
  let force := (dist * dist) / k
  ((dx / dist) * force, (dy / dist) * force)

/-- The attraction loop over the corridor edges.  Each endpoint is looked up in
the positions dict (a missing key raises, as in Python); the source's
displacement decreases and the target's increases by the contribution. -/
def attrFold (k : ℚ) (rsqrt : ℚ → ℚ) (posl : List (String × Vec)) :
    List (String × String) → (String → Vec) → Except String (String → Vec)
  | [], d => .ok d
  | (a, b) :: rest, d =>
      match List.lookup a posl, List.lookup b posl with
      | some pa, some pb =>
          let f := attrContrib k rsqrt pa pb
          let d1 := Function.update d a (d a - f)
          attrFold k rsqrt posl rest (Function.update d1 b (d1 b + f))
      | none, _ => .error ("KeyError: " ++ a)
      | some _, none => .error ("KeyError: " ++ b)

/-- The gravity loop step: subtract `gravity * position` from the node's
accumulated displacement. -/
def applyGrav (grav : ℚ) (d : String → Vec) (e : String × Vec) : String → Vec :=
  Function.update d e.1 (d e.1 - (grav * e.2.1, grav * e.2.2))

/-- The zero-initialized displacement accumulator of one iteration. -/
def zeroDisp : String → Vec := fun _ => (0, 0)

/-- The displacement accumulated by one iteration: the repulsion double loop,
then the attraction loop, then the gravity loop, in the source's order. -/
def computeDisp (k grav : ℚ) (rsqrt : ℚ → ℚ) (posl : List (String × Vec))
    (edges : List (String × String)) : Except String (String → Vec) :=
  let d1 := (pairsUpper posl).foldl (applyRep k rsqrt) zeroDisp
  match attrFold k rsqrt posl edges d1 with
  | .ok d2 => .ok (posl.foldl (applyGrav grav) d2)
  | .error e => .error e

/-- Displacement limiting: if the accumulated displacement has positive
length, move by `min(length, temperature)` along its direction. -/
def movePos (rsqrt : ℚ → ℚ) (temp : ℚ) (dv p : Vec) : Vec :=
  let len := rsqrt (dv.1 * dv.1 + dv.2 * dv.2)
  if 0 < len then
    (p.1 + (dv.1 / len) * min len temp, p.2 + (dv.2 / len) * min len temp)
  else p

/-- Boundary clamping of one position, axis by axis. -/
def clampBox (hw hh : ℚ) (p : Vec) : Vec :=
  (min hw (max (-hw) p.1), min hh (max (-hh) p.2))

/-- One relaxation iteration: accumulate the displacement, then move every
node under the temperature cap and clamp it to the box. -/
def iterBody (k grav W H : ℚ) (rsqrt : ℚ → ℚ) (edges : List (String × String))
    (temp : ℚ) (posl : List (String × Vec)) : Except String (List (String × Vec)) :=
  match computeDisp k grav rsqrt posl edges with
  | .ok d => .ok (posl.map fun e => (e.1, clampBox (W/2) (H/2) (movePos rsqrt temp (d e.1) e.2)))
  | .error e => .error e

/-- The iteration loop: up to `n` rounds, each followed by the `*= 0.95`
temperature decay and the `< 1e-4` early-exit test. -/
def loop (k grav W H : ℚ) (rsqrt : ℚ → ℚ) (edges : List (String × String)) :
    ℕ → ℚ → List (String × Vec) → Except String (List (String × Vec))
  | 0, _, posl => .ok posl
  | n + 1, temp, posl =>
      match iterBody k grav W H rsqrt edges temp posl with
      | .ok posl' =>
          if temp * (19/20) < theta then .ok posl'
          else loop k grav W H rsqrt edges n (temp * (19/20)) posl'
      | .error e => .error e

/-- The temperatures under which the loop's successive rounds execute. -/
def sched : ℕ → ℚ → List ℚ
  | 0, _ => []
  | n + 1, temp => temp :: (if temp * (19/20) < theta then [] else sched n (temp * (19/20)))

/-- `round(q, 5)` on an exact rational: round-half-even at the fifth decimal. -/
def rhe (q : ℚ) : ℤ :=
  if q - ⌊q⌋ = 1/2 then (if Even ⌊q⌋ then ⌊q⌋ else ⌊q⌋ + 1) else round q

/-- Final stored coordinate precision: five decimal digits. -/
def round5 (q : ℚ) : ℚ := (rhe (q * 100000) : ℚ) / 100000

/-- The normalization loop: add the final jitter to each node's internal
position (writing it back into the positions dict), map back to the
normalized frame, and store the rounded coordinates on the node. -/
def normLoop (W H margin : ℚ) (rng : ℕ → ℚ) (eps : ℚ) :
    List Node → List (String × Vec) → ℕ → Except String (List Node)
  | [], _, _ => .ok []
  | node :: rest, posl, c =>
      match List.lookup node.id posl with
      | some p =>
          let p' : Vec := (p.1 + (rng c - 1/2) * eps, p.2 + (rng (c+1) - 1/2) * eps)
          let nx := p'.1 / W + 1/2
          let ny := p'.2 / H + 1/2
          let po : PosObj :=
            ⟨some (.fnum (round5 (margin + nx * W))), some (.fnum (round5 (margin + ny * H)))⟩
          let node' : Node := { node with position := some po }
          match normLoop W H margin rng eps rest (upsert node.id p' posl) (c+2) with
          | .ok out => .ok (node' :: out)
          | .error e => .error e
      | none => .error ("KeyError: " ++ node.id)

/-- `k = sqrt((width * height) / max(len(nodes), 1))`. -/
def kVal (rsqrt : ℚ → ℚ) (W H : ℚ) (n : ℕ) : ℚ := rsqrt ((W * H) / (max n 1 : ℕ))

/-- `gravity = k * 0.1`. -/
def gravVal (k : ℚ) : ℚ := k * (1/10)

/-- `temperature = max(width, height) / 10`. -/
def temp0 (W H : ℚ) : ℚ := max W H / 10

/-- Everything `run_layout` does after the margin guard passes: initialize,
relax for `iterations` rounds (an `int` argument; `range` of a non-positive
count is empty), then normalize. -/
def layoutMain (rsqrt : ℚ → ℚ) (rng : ℕ → ℚ) (nodes : List Node)
    (iterations : ℤ) (margin : ℚ) : Except String (List Node) :=
  let W : ℚ := 1 - 2 * margin
  let H : ℚ := W
  match initPositions W H rng nodes 0 [] with
  | .ok (posl, c) =>
      let edges := edgeIterList nodes
      let k := kVal rsqrt W H nodes.length
      match loop k (gravVal k) W H rsqrt edges iterations.toNat (temp0 W H) posl with
      | .ok posl' => normLoop W H margin rng (min W H * (1/1000)) nodes posl' c
      | .error e => .error e
  | .error e => .error e

/-- `run_layout(nodes, iterations=it, margin=m)`: the margin guard, then the
layout pipeline. -/
def run_layout (rsqrt : ℚ → ℚ) (rng : ℕ → ℚ) (nodes : List Node)
    (iterations : ℤ) (margin : ℚ) : Except String (List Node) :=
  if 1 - 2 * margin ≤ 0 then .error ("Margin too large; layout area collapsed.")
  else layoutMain rsqrt rng nodes iterations margin

/-- Initialization with its draw indices named explicitly: the node at list
index `i` consumes draws `2*i` and `2*i + 1` of the shared stream. -/
def initIdx (W H : ℚ) (rng : ℕ → ℚ) :
    List Node → ℕ → List (String × Vec) → Except String (List (String × Vec))
  | [], _, acc => .ok acc
  | node :: rest, i, acc =>
      let pos := node.position.getD ⟨none, none⟩
      let jx := (rng (2*i) - 1/2) * W * (1/20)
      let jy := (rng (2*i+1) - 1/2) * H * (1/20)
      match toCoord pos.x, toCoord pos.y with
      | .ok x, .ok y =>
          initIdx W H rng rest (i+1)
            (upsert node.id ((x - 1/2) * W + jx, (y - 1/2) * H + jy) acc)
      | .error e, _ => .error e
      | .ok _, .error e => .error e

/-- Normalization with its draw indices named explicitly: with `nn` nodes in
total, the node at list index `i` consumes draws `2*nn + 2*i` and
`2*nn + 2*i + 1` of the shared stream. -/
def normIdx (W H margin : ℚ) (rng : ℕ → ℚ) (eps : ℚ) (nn : ℕ) :
    List Node → ℕ → List (String × Vec) → Except String (List Node)
  | [], _, _ => .ok []
  | node :: rest, i, posl =>
      match List.lookup node.id posl with
      | some p =>
          let p' : Vec := (p.1 + (rng (2*nn + 2*i) - 1/2) * eps,
                           p.2 + (rng (2*nn + 2*i + 1) - 1/2) * eps)
          let nx := p'.1 / W + 1/2
          let ny := p'.2 / H + 1/2
          let po : PosObj :=
            ⟨some (.fnum (round5 (margin + nx * W))), some (.fnum (round5 (margin + ny * H)))⟩
          let node' : Node := { node with position := some po }
          match normIdx W H margin rng eps nn rest (i+1) (upsert node.id p' posl) with
          | .ok out => .ok (node' :: out)
          | .error e => .error e
      | none => .error ("KeyError: " ++ node.id)

/-- `run_layout` with the generator draws assigned at explicit stream indices,
in the fixed order the spec describes: two draws per node in node-list order
during initialization, then two draws per node in node-list order during
normalization. -/
def run_layoutIdx (rsqrt : ℚ → ℚ) (rng : ℕ → ℚ) (nodes : List Node)
    (iterations : ℤ) (margin : ℚ) : Except String (List Node) :=
  if 1 - 2 * margin ≤ 0 then .error ("Margin too large; layout area collapsed.")
  else
    let W : ℚ := 1 - 2 * margin
    let H : ℚ := W
    match initIdx W H rng nodes 0 [] with
    | .ok posl =>
        let edges := edgeIterList nodes
        let k := kVal rsqrt W H nodes.length
        match loop k (gravVal k) W H rsqrt edges iterations.toNat (temp0 W H) posl with
        | .ok posl' => normIdx W H margin rng (min W H * (1/1000)) nodes.length nodes 0 posl'
        | .error e => .error e
    | .error e => .error e

/-- Spec-side repulsion term of one visited pair, following the spec's words:
the force of magnitude `k²/dist` along the source-to-target axis is
accumulated into both nodes' displacement with equal magnitude and opposite
sign (added at the source, subtracted at the target). -/
def repDelta (k : ℚ) (rsqrt : ℚ → ℚ) (pr : (String × Vec) × (String × Vec))
    (id : String) : Vec :=
  (if id = pr.1.1 then repContrib k rsqrt pr.1.2 pr.2.2 else 0) -
    (if id = pr.2.1 then repContrib k rsqrt pr.1.2 pr.2.2 else 0)

/-- Spec-side attraction term of one edge, following the spec's words: the
force of magnitude `dist²/k` pulls the pair together, subtracted at the
source endpoint and added at the target endpoint. -/
def attrDelta (k : ℚ) (rsqrt : ℚ → ℚ) (posl : List (String × Vec))
    (e : String × String) (id : String) : Vec :=
  let pa := (List.lookup e.1 posl).getD (0, 0)
  let pb := (List.lookup e.2 posl).getD (0, 0)
  (if id = e.2 then attrContrib k rsqrt pa pb else 0) -
    (if id = e.1 then attrContrib k rsqrt pa pb else 0)

/-- Spec-side gravity term, following the spec's words: subtract
`gravity · position` from the node's accumulated displacement. -/
def gravDelta (grav : ℚ) (ent : String × Vec) (id : String) : Vec :=
  if id = ent.1 then -(grav * ent.2.1, grav * ent.2.2) else 0

/-- Spec-side accumulated displacement of one iteration: the sum of the three
terms of the spec — repulsion summed over the visited pairs, attraction summed
over the edges, and the gravity term. -/
def specDisp (k grav : ℚ) (rsqrt : ℚ → ℚ) (posl : List (String × Vec))
    (edges : List (String × String)) (id : String) : Vec :=
  ((pairsUpper posl).map fun pr => repDelta k rsqrt pr id).sum
    + (edges.map fun e => attrDelta k rsqrt posl e id).sum
    + (posl.map fun ent => gravDelta grav ent id).sum

/-- The pure step of the attraction loop once both endpoint lookups are known
to succeed. -/
def attrStepP (k : ℚ) (rsqrt : ℚ → ℚ) (posl : List (String × Vec))
    (d : String → Vec) (e : String × String) : String → Vec :=
  let pa := (List.lookup e.1 posl).getD (0, 0)
  let pb := (List.lookup e.2 posl).getD (0, 0)
  let f := attrContrib k rsqrt pa pb
  let d1 := Function.update d e.1 (d e.1 - f)
  Function.update d1 e.2 (d1 e.2 + f)

section DispSum

lemma update_pair_apply (d : String → Vec) (a b : String) (f : Vec) (id : String) :
    Function.update (Function.update d a (d a + f)) b
        ((Function.update d a (d a + f)) b - f) id
      = d id + ((if id = a then f else 0) - (if id = b then f else 0)) := by
  rcases eq_or_ne id b with hb | hb
  · subst hb
    rcases eq_or_ne id a with ha | ha
    · subst ha
      simp [Function.update_apply]
    · simp [Function.update_apply, ha]
      abel
  · rcases eq_or_ne id a with ha | ha
    · subst ha
      simp [Function.update_apply, hb]
    · simp [Function.update_apply, ha, hb]

lemma update_pair_apply_sub (d : String → Vec) (a b : String) (f : Vec) (id : String) :
    Function.update (Function.update d a (d a - f)) b
        ((Function.update d a (d a - f)) b + f) id
      = d id + ((if id = b then f else 0) - (if id = a then f else 0)) := by
  rcases eq_or_ne id b with hb | hb
  · subst hb
    rcases eq_or_ne id a with ha | ha
    · subst ha
      simp [Function.update_apply]
    · simp [Function.update_apply, ha]
  · rcases eq_or_ne id a with ha | ha
    · subst ha
      simp [Function.update_apply, hb]
      abel
    · simp [Function.update_apply, ha, hb]

lemma applyRep_apply (k : ℚ) (rsqrt : ℚ → ℚ) (d : String → Vec)
    (pr : (String × Vec) × (String × Vec)) (id : String) :
    applyRep k rsqrt d pr id = d id + repDelta k rsqrt pr id := by
  unfold applyRep repDelta
  exact update_pair_apply d pr.1.1 pr.2.1 (repContrib k rsqrt pr.1.2 pr.2.2) id

lemma attrStepP_apply (k : ℚ) (rsqrt : ℚ → ℚ) (posl : List (String × Vec))
    (d : String → Vec) (e : String × String) (id : String) :
    attrStepP k rsqrt posl d e id = d id + attrDelta k rsqrt posl e id := by
  unfold attrStepP attrDelta
  exact update_pair_apply_sub d e.1 e.2 _ id

lemma applyGrav_apply (grav : ℚ) (d : String → Vec) (ent : String × Vec) (id : String) :
    applyGrav grav d ent id = d id + gravDelta grav ent id := by
  unfold applyGrav gravDelta
  rcases eq_or_ne id ent.1 with h | h
  · subst h
    simp [Function.update_apply, sub_eq_add_neg]
  · simp [Function.update_apply, h]

lemma foldl_delta {α : Type} (step : (String → Vec) → α → (String → Vec))
    (g : α → String → Vec) (hstep : ∀ d x id, step d x id = d id + g x id) :
    ∀ (L : List α) (d : String → Vec) (id : String),
      L.foldl step d id = d id + (L.map fun x => g x id).sum
  | [], d, id => by simp
  | x :: L, d, id => by
      simp only [List.foldl_cons, List.map_cons, List.sum_cons]
      rw [foldl_delta step g hstep L (step d x) id, hstep, add_assoc]

lemma attrFold_ok (k : ℚ) (rsqrt : ℚ → ℚ) (posl : List (String × Vec)) :
    ∀ (edges : List (String × String)) (d : String → Vec),
      (∀ e ∈ edges, (List.lookup e.1 posl).isSome ∧ (List.lookup e.2 posl).isSome) →
      attrFold k rsqrt posl edges d = .ok (edges.foldl (attrStepP k rsqrt posl) d)
  | [], d, _ => rfl
  | (a, b) :: rest, d, hE => by
      obtain ⟨ha, hb⟩ := hE (a, b) (List.mem_cons_self _ _)
      obtain ⟨pa, hpa⟩ := Option.isSome_iff_exists.mp ha
      obtain ⟨pb, hpb⟩ := Option.isSome_iff_exists.mp hb
      have hrest := fun e he => hE e (List.mem_cons_of_mem _ he)
      simp only [attrFold, hpa, hpb, List.foldl_cons]
      rw [attrFold_ok k rsqrt posl rest _ hrest]
      congr 1
      simp [attrStepP, hpa, hpb]

lemma mem_pairsUpper {α : Type} : ∀ (L : List α) (p : α × α),
    p ∈ pairsUpper L ↔ List.Sublist [p.1, p.2] L
  | [], p => by simp [pairsUpper]
  | x :: xs, p => by
      simp only [pairsUpper, List.mem_append, List.mem_map]
      constructor
      · rintro (⟨y, hy, rfl⟩ | h)
        · exact List.cons_sublist_cons.mpr (List.singleton_sublist.mpr hy)
        · exact ((mem_pairsUpper xs p).mp h).cons x
      · intro h
        cases h with
        | cons _ h' => exact Or.inr ((mem_pairsUpper xs p).mpr h')
        | cons₂ _ h' => exact Or.inl ⟨p.2, List.singleton_sublist.mp h', rfl⟩

lemma nodup_pairsUpper {α : Type} : ∀ (L : List α), L.Nodup → (pairsUpper L).Nodup
  | [], _ => List.nodup_nil
  | x :: xs, h => by
      obtain ⟨hx, hxs⟩ := List.nodup_cons.mp h
      refine List.Nodup.append ?_ (nodup_pairsUpper xs hxs) ?_
      · exact hxs.map fun a b hab => congrArg Prod.snd hab
      · intro p hp hp'
        obtain ⟨y, _, rfl⟩ := List.mem_map.mp hp
        exact hx (((mem_pairsUpper xs _).mp hp').subset (List.mem_cons_self _ _))

end DispSum

/-- Claim C1: in every iteration of `run_layout`, each node's accumulated
displacement equals the sum of the three specified terms: (a) repulsion over
the visited pairs — and the visited pairs are exactly the unordered pairs of
distinct nodes, each exactly once — with magnitude `k²/dist`,
`dist = sqrt(dx² + dy² + 1e-9)`, applied to both nodes with opposite signs;
(b) attraction per edge with magnitude `dist²/k`, `dist = sqrt(dx² + dy²) +
1e-9`, pulling the endpoints together with opposite signs; (c) gravity,
subtracting `0.1·k` times the node's current position; with
`k = sqrt((W·H)/max(node_count, 1))`. -/
theorem claim1_disp_is_sum_of_three_terms
    (k grav : ℚ) (rsqrt : ℚ → ℚ) (posl : List (String × Vec))
    (edges : List (String × String))
    (hE : ∀ e ∈ edges, (List.lookup e.1 posl).isSome ∧ (List.lookup e.2 posl).isSome) :
    computeDisp k grav rsqrt posl edges
        = .ok (fun id => specDisp k grav rsqrt posl edges id)
      ∧ (∀ p : (String × Vec) × (String × Vec),
          p ∈ pairsUpper posl ↔ List.Sublist [p.1, p.2] posl)
      ∧ (posl.Nodup → (pairsUpper posl).Nodup)
      ∧ (∀ W H : ℚ, ∀ n : ℕ, kVal rsqrt W H n = rsqrt ((W * H) / (max n 1 : ℕ)))
      ∧ (∀ kk : ℚ, gravVal kk = kk * (1/10)) := by
  refine ⟨?_, fun p => mem_pairsUpper posl p, nodup_pairsUpper posl,
    fun _ _ _ => rfl, fun _ => rfl⟩
  have h1 := attrFold_ok k rsqrt posl edges
    ((pairsUpper posl).foldl (applyRep k rsqrt) zeroDisp) hE
  simp only [computeDisp, h1]
  refine congrArg Except.ok ?_
  funext id
  rw [foldl_delta (applyGrav grav) (gravDelta grav) (applyGrav_apply grav) posl _ id]
  rw [foldl_delta (attrStepP k rsqrt posl) (attrDelta k rsqrt posl)
    (attrStepP_apply k rsqrt posl) edges _ id]
  rw [foldl_delta (applyRep k rsqrt) (repDelta k rsqrt) (applyRep_apply k rsqrt)
    (pairsUpper posl) zeroDisp id]
  have hz : zeroDisp id = 0 := rfl
  rw [hz, zero_add]
  rfl

/-- Witness for C1 at a concrete two-node, one-edge instance. -/
theorem claim1_witness :
    computeDisp 1 1 (fun _ => 1) [("a", ((0:ℚ), (0:ℚ))), ("b", (1, 0))] [("a", "b")]
        = .ok (fun id =>
            specDisp 1 1 (fun _ => 1) [("a", ((0:ℚ), (0:ℚ))), ("b", (1, 0))] [("a", "b")] id)
      ∧ (∀ p : (String × Vec) × (String × Vec),
          p ∈ pairsUpper [("a", ((0:ℚ), (0:ℚ))), ("b", (1, 0))]
            ↔ List.Sublist [p.1, p.2] [("a", ((0:ℚ), (0:ℚ))), ("b", (1, 0))])
      ∧ (([("a", ((0:ℚ), (0:ℚ))), ("b", (1, 0))] : List (String × Vec)).Nodup →
          (pairsUpper [("a", ((0:ℚ), (0:ℚ))), ("b", (1, 0))]).Nodup)
      ∧ (∀ W H : ℚ, ∀ n : ℕ, kVal (fun _ => 1) W H n = (fun _ => (1:ℚ)) ((W * H) / (max n 1 : ℕ)))
      ∧ (∀ kk : ℚ, gravVal kk = kk * (1/10)) :=
  claim1_disp_is_sum_of_three_terms 1 1 (fun _ => 1)
    [("a", ((0:ℚ), (0:ℚ))), ("b", (1, 0))] [("a", "b")] (by decide)

/-- The containment predicate of the spec: an entry of the positions dict lies
within `[-W/2, W/2] × [-H/2, H/2]`. -/
def inBox (W H : ℚ) (e : String × Vec) : Prop :=
  -(W/2) ≤ e.2.1 ∧ e.2.1 ≤ W/2 ∧ -(H/2) ≤ e.2.2 ∧ e.2.2 ≤ H/2

instance (W H : ℚ) (e : String × Vec) : Decidable (inBox W H e) := by
  unfold inBox
  infer_instance

section Containment

lemma clampBox_box (hw hh : ℚ) (h1 : 0 ≤ hw) (h2 : 0 ≤ hh) (p : Vec) :
    -hw ≤ (clampBox hw hh p).1 ∧ (clampBox hw hh p).1 ≤ hw ∧
      -hh ≤ (clampBox hw hh p).2 ∧ (clampBox hw hh p).2 ≤ hh := by
  unfold clampBox
  refine ⟨le_min (neg_nonpos.mpr h1 |>.trans h1) (le_max_left _ _), min_le_left _ _,
    le_min (neg_nonpos.mpr h2 |>.trans h2) (le_max_left _ _), min_le_left _ _⟩

lemma iterBody_box (k grav W H : ℚ) (rsqrt : ℚ → ℚ) (edges : List (String × String))
    (hW : 0 ≤ W) (hH : 0 ≤ H) (temp : ℚ) (posl out : List (String × Vec))
    (h : iterBody k grav W H rsqrt edges temp posl = .ok out) :
    ∀ e ∈ out, inBox W H e := by
  unfold iterBody at h
  cases hd : computeDisp k grav rsqrt posl edges with
  | ok d =>
      rw [hd] at h
      injection h with h
      subst h
      intro e he
      obtain ⟨ent, _, rfl⟩ := List.mem_map.mp he
      have hw2 : 0 ≤ W/2 := by linarith
      have hh2 : 0 ≤ H/2 := by linarith
      exact clampBox_box (W/2) (H/2) hw2 hh2 _
  | error msg => rw [hd] at h; cases h

lemma loop_box_preserve (k grav W H : ℚ) (rsqrt : ℚ → ℚ) (edges : List (String × String))
    (hW : 0 ≤ W) (hH : 0 ≤ H) :
    ∀ (n : ℕ) (temp : ℚ) (posl out : List (String × Vec)),
      (∀ e ∈ posl, inBox W H e) →
      loop k grav W H rsqrt edges n temp posl = .ok out →
      ∀ e ∈ out, inBox W H e
  | 0, temp, posl, out, hp, h => by
      injection h with h
      subst h
      exact hp
  | n + 1, temp, posl, out, hp, h => by
      unfold loop at h
      cases hd : iterBody k grav W H rsqrt edges temp posl with
      | ok posl' =>
          rw [hd] at h
          dsimp only at h
          have hbox := iterBody_box k grav W H rsqrt edges hW hH temp posl posl' hd
          by_cases hstop : temp * (19/20) < theta
          · rw [if_pos hstop] at h
            injection h with h
            subst h
            exact hbox
          · rw [if_neg hstop] at h
            exact loop_box_preserve k grav W H rsqrt edges hW hH n _ posl' out hbox h
      | error msg => rw [hd] at h; cases h

lemma loop_box_of_pos (k grav W H : ℚ) (rsqrt : ℚ → ℚ) (edges : List (String × String))
    (hW : 0 ≤ W) (hH : 0 ≤ H) (n : ℕ) (temp : ℚ) (posl out : List (String × Vec))
    (hn : 1 ≤ n) (h : loop k grav W H rsqrt edges n temp posl = .ok out) :
    ∀ e ∈ out, inBox W H e := by
  obtain ⟨m, rfl⟩ : ∃ m, n = m + 1 := ⟨n - 1, (Nat.succ_pred_eq_of_pos hn).symm⟩
  unfold loop at h
  cases hd : iterBody k grav W H rsqrt edges temp posl with
  | ok posl' =>
      rw [hd] at h
      dsimp only at h
      have hbox := iterBody_box k grav W H rsqrt edges hW hH temp posl posl' hd
      by_cases hstop : temp * (19/20) < theta
      · rw [if_pos hstop] at h
        injection h with h
        subst h
        exact hbox
      · rw [if_neg hstop] at h
        exact loop_box_preserve k grav W H rsqrt edges hW hH m _ posl' out hbox h
  | error msg => rw [hd] at h; cases h

end Containment

/-- Counterexample to claim C2 as stated: a node whose stored normalized
position is `(1, 1) ∈ [0,1]²`, with margin `0` (so `W = H = 1`), a legal jitter
draw of `9/10`, lands at internal x-coordinate `13/25` after initialization —
outside `[-W/2, W/2]`.  Initialization applies jitter without clamping, so the
containment invariant does not hold after zero completed iterations. -/
theorem claim2_counterexample :
    initPositions 1 1 (fun _ => 9/10)
        [⟨"a", some ⟨some (.fnum 1), some (.fnum 1)⟩, []⟩] 0 []
        = .ok ([("a", ((13:ℚ)/25, (13:ℚ)/25))], 2)
      ∧ ¬ inBox 1 1 ("a", ((13:ℚ)/25, (13:ℚ)/25)) := by
  constructor
  · norm_num [initPositions, toCoord, upsert]
  · norm_num [inBox]

/-- Claim C2 (amended): containment holds after every completed iteration —
each iteration ends with the per-axis clamp — and hence, when at least one
iteration executes (iterations ≥ 1), at the start of normalization.  After
initialization alone (zero completed iterations) it can fail, because the
initialization jitter is applied without clamping (see the counterexample). -/
theorem claim2_containment_after_iterations
    (k grav W H : ℚ) (rsqrt : ℚ → ℚ) (edges : List (String × String))
    (hW : 0 ≤ W) (hH : 0 ≤ H) :
    (∀ temp posl out, iterBody k grav W H rsqrt edges temp posl = .ok out →
        ∀ e ∈ out, inBox W H e)
      ∧ (∀ n temp posl out, 1 ≤ n →
          loop k grav W H rsqrt edges n temp posl = .ok out →
          ∀ e ∈ out, inBox W H e) :=
  ⟨fun temp posl out h => iterBody_box k grav W H rsqrt edges hW hH temp posl out h,
    fun n temp posl out hn h =>
      loop_box_of_pos k grav W H rsqrt edges hW hH n temp posl out hn h⟩

/-- Witness for C2 (amended) at a concrete one-node instance: one iteration
from the center leaves the node at the center, inside the box. -/
theorem claim2_witness :
    (0:ℚ) ≤ 1 ∧
      loop 1 1 1 1 (fun _ => 1) [] 1 (1/10) [("a", ((0:ℚ), (0:ℚ)))]
        = .ok [("a", ((0:ℚ), (0:ℚ)))] ∧
      ∀ e ∈ [("a", ((0:ℚ), (0:ℚ)))], inBox 1 1 e := by
  have hrun : loop 1 1 1 1 (fun _ => 1) [] 1 (1/10) [("a", ((0:ℚ), (0:ℚ)))]
      = .ok [("a", ((0:ℚ), (0:ℚ)))] := by
    norm_num [loop, iterBody, computeDisp, attrFold, pairsUpper, applyGrav, zeroDisp,
      movePos, clampBox, theta, Function.update_same]
  refine ⟨by norm_num, hrun, ?_⟩
  exact (claim2_containment_after_iterations 1 1 1 1 (fun _ => 1) [] (by norm_num)
    (by norm_num)).2 1 (1/10) [("a", ((0:ℚ), (0:ℚ)))] _ (le_refl 1) hrun

section LookupLemmas

lemma lookup_some_mem (id : String) : ∀ (l : List (String × Vec)) (v : Vec),
    List.lookup id l = some v → (id, v) ∈ l
  | [], v, h => by simp [List.lookup] at h
  | (a, w) :: rest, v, h => by
      by_cases hid : id = a
      · subst hid
        simp only [List.lookup, beq_self_eq_true] at h
        injection h with h
        subst h
        exact List.mem_cons_self _ _
      · have hb : (id == a) = false := beq_eq_false_iff_ne.mpr hid
        simp only [List.lookup, hb] at h
        exact List.mem_cons_of_mem _ (lookup_some_mem id rest v h)

lemma lookup_upsert_ne (key id : String) (v : Vec) (h : id ≠ key) :
    ∀ l : List (String × Vec), List.lookup id (upsert key v l) = List.lookup id l
  | [] => by
      have hb : (id == key) = false := beq_eq_false_iff_ne.mpr h
      simp [upsert, List.lookup, hb]
  | (a, w) :: rest => by
      have hb : (id == key) = false := beq_eq_false_iff_ne.mpr h
      by_cases hk : a = key
      · subst hk
        simp only [upsert, if_pos rfl, List.lookup, hb]
      · simp only [upsert, if_neg hk, List.lookup]
        by_cases hid : id = a
        · subst hid
          simp only [beq_self_eq_true]
        · have hb2 : (id == a) = false := beq_eq_false_iff_ne.mpr hid
          simp only [hb2]
          exact lookup_upsert_ne key id v h rest

lemma lookup_upsert_isSome (key id : String) (v : Vec) :
    ∀ l : List (String × Vec),
      (List.lookup id (upsert key v l)).isSome ↔ id = key ∨ (List.lookup id l).isSome
  | [] => by
      by_cases hid : id = key
      · subst hid
        simp [upsert, List.lookup]
      · have hb : (id == key) = false := beq_eq_false_iff_ne.mpr hid
        simp [upsert, List.lookup, hb, hid]
  | (a, w) :: rest => by
      by_cases hk : a = key
      · subst hk
        by_cases hid : id = a
        · subst hid
          simp [upsert, List.lookup]
        · have hb : (id == a) = false := beq_eq_false_iff_ne.mpr hid
          simp [upsert, List.lookup, hb, hid]
      · simp only [upsert, if_neg hk, List.lookup]
        by_cases hid : id = a
        · subst hid
          simp only [beq_self_eq_true, Option.isSome_some]
          simp
        · have hb2 : (id == a) = false := beq_eq_false_iff_ne.mpr hid
          simp only [hb2]
          exact lookup_upsert_isSome key id v rest

end LookupLemmas

section Rounding

lemma rhe_bound (q : ℚ) : |(rhe q : ℚ) - q| ≤ 1/2 := by
  unfold rhe
  by_cases h : q - ⌊q⌋ = 1/2
  · have hfq : (⌊q⌋ : ℚ) = q - 1/2 := by linarith
    by_cases he : Even ⌊q⌋
    · rw [if_pos h, if_pos he, hfq]
      rw [abs_le]
      constructor <;> linarith
    · rw [if_pos h, if_neg he]
      push_cast
      rw [hfq, abs_le]
      constructor <;> linarith
  · rw [if_neg h]
    have := abs_sub_round q
    rwa [abs_sub_comm] at this

lemma round5_bound (q : ℚ) : |round5 q - q| ≤ 1/200000 := by
  have h := rhe_bound (q * 100000)
  unfold round5
  have heq : (rhe (q * 100000) : ℚ) / 100000 - q
      = ((rhe (q * 100000) : ℚ) - q * 100000) / 100000 := by ring
  rw [heq, abs_div, abs_of_pos (by norm_num : (0:ℚ) < 100000)]
  linarith [h]

lemma round5_denom (q : ℚ) : ∃ m : ℤ, round5 q = (m : ℚ) / 100000 :=
  ⟨rhe (q * 100000), rfl⟩

end Rounding

section Keys

lemma initPositions_keys (W H : ℚ) (rng : ℕ → ℚ) :
    ∀ (ns : List Node) (c : ℕ) (acc posl : List (String × Vec)) (c' : ℕ),
      initPositions W H rng ns c acc = .ok (posl, c') →
      ∀ id, (List.lookup id posl).isSome ↔
        ((List.lookup id acc).isSome ∨ id ∈ ns.map Node.id)
  | [], c, acc, posl, c', h => by
      injection h with h
      rw [Prod.mk.injEq] at h
      obtain ⟨h1, _⟩ := h
      subst h1
      simp
  | node :: rest, c, acc, posl, c', h => by
      unfold initPositions at h
      dsimp only at h
      cases hx : toCoord (node.position.getD ⟨none, none⟩).x with
      | ok x =>
          cases hy : toCoord (node.position.getD ⟨none, none⟩).y with
          | ok y =>
              rw [hx, hy] at h
              dsimp only at h
              intro id
              rw [initPositions_keys W H rng rest (c+2) _ posl c' h id]
              rw [lookup_upsert_isSome]
              simp only [List.map_cons, List.mem_cons]
              tauto
          | error e => rw [hx, hy] at h; cases h
      | error e => rw [hx] at h; cases h

lemma lookup_map_isSome (g : String × Vec → Vec) (id : String) :
    ∀ posl : List (String × Vec),
      (List.lookup id (posl.map fun e => (e.1, g e))).isSome
        = (List.lookup id posl).isSome
  | [] => rfl
  | (a, w) :: rest => by
      by_cases hid : id = a
      · subst hid
        simp [List.lookup]
      · have hb : (id == a) = false := beq_eq_false_iff_ne.mpr hid
        simp only [List.map_cons, List.lookup, hb]
        exact lookup_map_isSome g id rest

lemma iterBody_keys (k grav W H : ℚ) (rsqrt : ℚ → ℚ) (edges : List (String × String))
    (temp : ℚ) (posl out : List (String × Vec))
    (h : iterBody k grav W H rsqrt edges temp posl = .ok out) (id : String) :
    (List.lookup id out).isSome = (List.lookup id posl).isSome := by
  unfold iterBody at h
  cases hd : computeDisp k grav rsqrt posl edges with
  | ok d =>
      rw [hd] at h
      injection h with h
      subst h
      exact lookup_map_isSome _ id posl
  | error msg => rw [hd] at h; cases h

lemma loop_keys (k grav W H : ℚ) (rsqrt : ℚ → ℚ) (edges : List (String × String)) :
    ∀ (n : ℕ) (temp : ℚ) (posl out : List (String × Vec)),
      loop k grav W H rsqrt edges n temp posl = .ok out →
      ∀ id, (List.lookup id out).isSome = (List.lookup id posl).isSome
  | 0, temp, posl, out, h => by
      injection h with h
      subst h
      intro id
      rfl
  | n + 1, temp, posl, out, h => by
      unfold loop at h
      cases hd : iterBody k grav W H rsqrt edges temp posl with
      | ok posl' =>
          rw [hd] at h
          dsimp only at h
          by_cases hstop : temp * (19/20) < theta
          · rw [if_pos hstop] at h
            injection h with h
            subst h
            exact iterBody_keys k grav W H rsqrt edges temp posl _ hd
          · rw [if_neg hstop] at h
            intro id
            rw [loop_keys k grav W H rsqrt edges n _ posl' out h id]
            exact iterBody_keys k grav W H rsqrt edges temp posl posl' hd id
      | error msg => rw [hd] at h; cases h

end Keys

section NormRange

lemma normLoop_range (W margin : ℚ) (rng : ℕ → ℚ) (hW : 0 < W)
    (hrng : ∀ j, 0 ≤ rng j ∧ rng j < 1) :
    ∀ (ns : List Node) (posl : List (String × Vec)) (c : ℕ) (out : List Node),
      (ns.map Node.id).Nodup →
      (∀ nd ∈ ns, ∃ p, List.lookup nd.id posl = some p ∧ inBox W W (nd.id, p)) →
      normLoop W W margin rng (min W W * (1/1000)) ns posl c = .ok out →
      ∀ nd ∈ out, ∃ x y : ℚ,
        nd.position = some ⟨some (.fnum x), some (.fnum y)⟩ ∧
        (∃ mx : ℤ, x = (mx : ℚ)/100000) ∧ (∃ my : ℤ, y = (my : ℚ)/100000) ∧
        margin - W/2000 - 1/200000 ≤ x ∧ x ≤ margin + W + W/2000 + 1/200000 ∧
        margin - W/2000 - 1/200000 ≤ y ∧ y ≤ margin + W + W/2000 + 1/200000
  | [], posl, c, out, _, _, h => by
      injection h with h
      subst h
      intro nd hnd
      cases hnd
  | node :: rest, posl, c, out, hnodup, hpre, h => by
      obtain ⟨p, hp, hbox⟩ := hpre node (List.mem_cons_self _ _)
      simp only [normLoop, hp] at h
      rw [List.map_cons] at hnodup
      obtain ⟨hhead, htail⟩ := List.nodup_cons.mp hnodup
      cases hrec : normLoop W W margin rng (min W W * (1/1000)) rest
          (upsert node.id (p.1 + (rng c - 1/2) * (min W W * (1/1000)),
            p.2 + (rng (c+1) - 1/2) * (min W W * (1/1000))) posl) (c+2) with
      | ok out' =>
          rw [hrec] at h
          injection h with h
          subst h
          have htailgoal := normLoop_range W margin rng hW hrng rest _ (c+2) out' htail
            (by
              intro nd hnd
              obtain ⟨q, hq, hqbox⟩ := hpre nd (List.mem_cons_of_mem _ hnd)
              refine ⟨q, ?_, hqbox⟩
              rw [lookup_upsert_ne node.id nd.id _ ?_ posl]
              · exact hq
              · intro heq
                exact hhead (heq ▸ List.mem_map_of_mem Node.id hnd)) hrec
          intro nd hnd
          rcases List.mem_cons.mp hnd with hnd | hnd
          · subst hnd
            refine ⟨_, _, rfl, round5_denom _, round5_denom _, ?_⟩
            rw [min_self] at *
            obtain ⟨hb1, hb2, hb3, hb4⟩ := hbox
            dsimp only at hb1 hb2 hb3 hb4
            obtain ⟨hc0, hc1⟩ := hrng c
            obtain ⟨hd0, hd1⟩ := hrng (c+1)
            have hWne : W ≠ 0 := ne_of_gt hW
            have hjx : -(W/2000) ≤ (rng c - 1/2) * (W * (1/1000)) ∧
                (rng c - 1/2) * (W * (1/1000)) ≤ W/2000 := by
              constructor <;> nlinarith
            have hjy : -(W/2000) ≤ (rng (c+1) - 1/2) * (W * (1/1000)) ∧
                (rng (c+1) - 1/2) * (W * (1/1000)) ≤ W/2000 := by
              constructor <;> nlinarith
            have hprex : margin + ((p.1 + (rng c - 1/2) * (W * (1/1000)))/W + 1/2) * W
                = margin + (p.1 + (rng c - 1/2) * (W * (1/1000))) + W/2 := by
              field_simp
              ring
            have hprey : margin + ((p.2 + (rng (c+1) - 1/2) * (W * (1/1000)))/W + 1/2) * W
                = margin + (p.2 + (rng (c+1) - 1/2) * (W * (1/1000))) + W/2 := by
              field_simp
              ring
            have hrx := abs_le.mp (round5_bound
              (margin + ((p.1 + (rng c - 1/2) * (W * (1/1000)))/W + 1/2) * W))
            have hry := abs_le.mp (round5_bound
              (margin + ((p.2 + (rng (c+1) - 1/2) * (W * (1/1000)))/W + 1/2) * W))
            rw [hprex] at hrx
            rw [hprey] at hry
            refine ⟨?_, ?_, ?_, ?_⟩
            · rw [hprex]
              linarith [hrx.1, hrx.2, hjx.1, hjx.2]
            · rw [hprex]
              linarith [hrx.1, hrx.2, hjx.1, hjx.2]
            · rw [hprey]
              linarith [hry.1, hry.2, hjy.1, hjy.2]
            · rw [hprey]
              linarith [hry.1, hry.2, hjy.1, hjy.2]
          · exact htailgoal nd hnd
      | error msg => rw [hrec] at h; cases h

end NormRange

/-- Claim C3 (amended): for `iterations ≥ 1`, every written coordinate is a
multiple of `1e-5` (five-decimal rounding) and lies within `[margin, 1-margin]`
extended by the final-jitter half-amplitude `(1-2·margin)/2000` plus the
rounding tolerance `1/200000` — not merely by the rounding precision alone.
The final jitter is added after the last clamp, so the exceedance can reach
`min(W,H)·5·10⁻⁴`, fifty times the 5-decimal rounding precision; and with
`iterations = 0` (see the counterexample) the unclamped initialization jitter
can push a boundary node a further `0.025·size` outside. -/
theorem claim3_output_range
    (rsqrt : ℚ → ℚ) (rng : ℕ → ℚ) (nodes : List Node) (iterations : ℤ) (margin : ℚ)
    (out : List Node)
    (h0 : 0 ≤ margin) (h1 : margin < 1/2) (hit : 1 ≤ iterations)
    (hrng : ∀ j, 0 ≤ rng j ∧ rng j < 1)
    (hids : (nodes.map Node.id).Nodup)
    (hrun : run_layout rsqrt rng nodes iterations margin = .ok out) :
    ∀ nd ∈ out, ∃ x y : ℚ,
      nd.position = some ⟨some (.fnum x), some (.fnum y)⟩ ∧
      (∃ mx : ℤ, x = (mx : ℚ)/100000) ∧ (∃ my : ℤ, y = (my : ℚ)/100000) ∧
      margin - (1 - 2*margin)/2000 - 1/200000 ≤ x ∧
      x ≤ 1 - margin + (1 - 2*margin)/2000 + 1/200000 ∧
      margin - (1 - 2*margin)/2000 - 1/200000 ≤ y ∧
      y ≤ 1 - margin + (1 - 2*margin)/2000 + 1/200000 := by
  have hWpos : (0:ℚ) < 1 - 2*margin := by linarith
  unfold run_layout at hrun
  rw [if_neg (by linarith : ¬ (1 - 2*margin ≤ 0))] at hrun
  unfold layoutMain at hrun
  dsimp only at hrun
  cases hinit : initPositions (1 - 2*margin) (1 - 2*margin) rng nodes 0 [] with
  | ok pc =>
      obtain ⟨posl, c⟩ := pc
      rw [hinit] at hrun
      dsimp only at hrun
      cases hloop : loop (kVal rsqrt (1 - 2*margin) (1 - 2*margin) nodes.length)
          (gravVal (kVal rsqrt (1 - 2*margin) (1 - 2*margin) nodes.length))
          (1 - 2*margin) (1 - 2*margin) rsqrt (edgeIterList nodes)
          iterations.toNat (temp0 (1 - 2*margin) (1 - 2*margin)) posl with
      | ok posl' =>
          rw [hloop] at hrun
          dsimp only at hrun
          have hn1 : 1 ≤ iterations.toNat := by
            have := Int.toNat_le_toNat hit
            simpa using this
          have hbox := loop_box_of_pos _ _ _ _ rsqrt (edgeIterList nodes)
            (le_of_lt hWpos) (le_of_lt hWpos) iterations.toNat _ posl posl' hn1 hloop
          have hkeys := loop_keys _ _ _ _ rsqrt (edgeIterList nodes)
            iterations.toNat _ posl posl' hloop
          have hikeys := initPositions_keys (1 - 2*margin) (1 - 2*margin) rng
            nodes 0 [] posl c hinit
          have hrange := normLoop_range (1 - 2*margin) margin rng hWpos hrng
            nodes posl' c out hids ?_ hrun
          · intro nd hnd
            obtain ⟨x, y, hpos, hmx, hmy, hx1, hx2, hy1, hy2⟩ := hrange nd hnd
            exact ⟨x, y, hpos, hmx, hmy, by linarith, by linarith, by linarith, by linarith⟩
          · intro nd hnd
            have hsome : (List.lookup nd.id posl').isSome := by
              rw [hkeys nd.id, hikeys nd.id]
              exact Or.inr (List.mem_map_of_mem Node.id hnd)
            obtain ⟨p, hp⟩ := Option.isSome_iff_exists.mp hsome
            exact ⟨p, hp, hbox (nd.id, p) (lookup_some_mem nd.id posl' p hp)⟩
      | error msg => rw [hloop] at hrun; cases hrun
  | error msg => rw [hinit] at hrun; cases hrun

/-- Counterexample to claim C3 as stated: node stored at `(1,1) ∈ [0,1]²`,
`margin = 0`, `iterations = 0`, all draws `9/10`.  The written coordinate is
`1.0204`, exceeding `1 - margin = 1` by `0.0204`, far beyond the 5-decimal
rounding precision `1e-5`. -/
theorem claim3_counterexample :
    run_layout (fun _ => 1) (fun _ => 9/10)
        [⟨"a", some ⟨some (.fnum 1), some (.fnum 1)⟩, []⟩] 0 0
      = .ok [⟨"a", some ⟨some (.fnum ((2551:ℚ)/2500)), some (.fnum ((2551:ℚ)/2500))⟩, []⟩]
      ∧ ¬ ((2551:ℚ)/2500 ≤ 1 - 0 + 1/100000) := by
  constructor
  · norm_num [run_layout, layoutMain, initPositions, toCoord, upsert, edgeIterList,
      buildEdgesList, loop, normLoop, kVal, gravVal, temp0, round5, rhe, round_eq,
      List.lookup, List.dedup, min_self]
  · norm_num

/-- Witness for C3 (amended) at a concrete one-node, one-iteration run. -/
theorem claim3_witness :
    run_layout (fun _ => 1) (fun _ => 1/2)
        [⟨"a", some ⟨some (.fnum (1/2)), some (.fnum (1/2))⟩, []⟩] 1 0
      = .ok [⟨"a", some ⟨some (.fnum ((1:ℚ)/2)), some (.fnum ((1:ℚ)/2))⟩, []⟩]
      ∧ ∀ nd ∈ [(⟨"a", some ⟨some (.fnum ((1:ℚ)/2)), some (.fnum ((1:ℚ)/2))⟩, []⟩ : Node)],
          ∃ x y : ℚ,
            nd.position = some ⟨some (.fnum x), some (.fnum y)⟩ ∧
            (∃ mx : ℤ, x = (mx : ℚ)/100000) ∧ (∃ my : ℤ, y = (my : ℚ)/100000) ∧
            (0:ℚ) - (1 - 2*0)/2000 - 1/200000 ≤ x ∧
            x ≤ 1 - 0 + (1 - 2*0)/2000 + 1/200000 ∧
            (0:ℚ) - (1 - 2*0)/2000 - 1/200000 ≤ y ∧
            y ≤ 1 - 0 + (1 - 2*0)/2000 + 1/200000 := by
  have hrun : run_layout (fun _ => 1) (fun _ => 1/2)
      [⟨"a", some ⟨some (.fnum (1/2)), some (.fnum (1/2))⟩, []⟩] 1 0
      = .ok [⟨"a", some ⟨some (.fnum ((1:ℚ)/2)), some (.fnum ((1:ℚ)/2))⟩, []⟩] := by
    norm_num [run_layout, layoutMain, initPositions, toCoord, upsert, edgeIterList,
      buildEdgesList, loop, iterBody, computeDisp, attrFold, pairsUpper, applyGrav,
      zeroDisp, movePos, clampBox, theta, Function.update_same, normLoop, kVal,
      gravVal, temp0, round5, rhe, round_eq, List.lookup, List.dedup, min_self]
  refine ⟨hrun, ?_⟩
  exact claim3_output_range (fun _ => 1) (fun _ => 1/2)
    [⟨"a", some ⟨some (.fnum (1/2)), some (.fnum (1/2))⟩, []⟩] 1 0
    [⟨"a", some ⟨some (.fnum ((1:ℚ)/2)), some (.fnum ((1:ℚ)/2))⟩, []⟩]
    (le_refl 0) (by norm_num) (le_refl 1) (fun j => by norm_num) (by simp) hrun

/-- Running the iteration body once per scheduled temperature, propagating the
first error, exactly as the loop does. -/
def schedFold (k grav W H : ℚ) (rsqrt : ℚ → ℚ) (edges : List (String × String)) :
    List ℚ → List (String × Vec) → Except String (List (String × Vec))
  | [], posl => .ok posl
  | t :: ts, posl =>
      match iterBody k grav W H rsqrt edges t posl with
      | .ok posl' => schedFold k grav W H rsqrt edges ts posl'
      | .error e => .error e

section Schedule

lemma loop_eq_schedFold (k grav W H : ℚ) (rsqrt : ℚ → ℚ) (edges : List (String × String)) :
    ∀ (n : ℕ) (temp : ℚ) (posl : List (String × Vec)),
      loop k grav W H rsqrt edges n temp posl
        = schedFold k grav W H rsqrt edges (sched n temp) posl
  | 0, temp, posl => rfl
  | n + 1, temp, posl => by
      unfold loop sched
      cases hd : iterBody k grav W H rsqrt edges temp posl with
      | ok posl' =>
          dsimp only
          by_cases hstop : temp * (19/20) < theta
          · rw [if_pos hstop, if_pos hstop]
            simp [schedFold, hd]
          · rw [if_neg hstop, if_neg hstop]
            simp only [schedFold, hd]
            exact loop_eq_schedFold k grav W H rsqrt edges n (temp * (19/20)) posl'
      | error msg =>
          dsimp only
          simp [schedFold, hd]

lemma sched_length_le : ∀ (n : ℕ) (t : ℚ), (sched n t).length ≤ n
  | 0, _ => le_refl 0
  | n + 1, t => by
      unfold sched
      by_cases h : t * (19/20) < theta
      · rw [if_pos h]
        simp
      · rw [if_neg h]
        simpa using Nat.succ_le_succ (sched_length_le n (t * (19/20)))

lemma sched_getD : ∀ (n : ℕ) (t : ℚ) (i : ℕ), i < (sched n t).length →
    (sched n t).getD i 0 = t * (19/20)^i
  | 0, t, i, h => absurd h (by simp [sched])
  | n + 1, t, i, h => by
      rw [show sched (n+1) t
          = t :: (if t * (19/20) < theta then [] else sched n (t * (19/20))) from rfl] at h ⊢
      by_cases hs : t * (19/20) < theta
      · rw [if_pos hs] at h ⊢
        match i with
        | 0 => simp
        | i + 1 => exact absurd h (by simp)
      · rw [if_neg hs] at h ⊢
        match i with
        | 0 => simp
        | i + 1 =>
            have hi : i < (sched n (t * (19/20))).length := by
              simpa using Nat.lt_of_succ_lt_succ (by simpa using h)
            rw [List.getD_cons_succ, sched_getD n (t * (19/20)) i hi]
            ring

lemma sched_continue : ∀ (n : ℕ) (t : ℚ) (i : ℕ),
    i + 1 < (sched n t).length → theta ≤ t * (19/20)^(i+1)
  | 0, t, i, h => absurd h (by simp [sched])
  | n + 1, t, i, h => by
      unfold sched at h
      by_cases hs : t * (19/20) < theta
      · rw [if_pos hs] at h
        exact absurd h (by simp)
      · rw [if_neg hs] at h
        simp only [List.length_cons] at h
        match i with
        | 0 =>
            simpa [pow_one] using not_lt.mp hs
        | i + 1 =>
            have := sched_continue n (t * (19/20)) i (by omega)
            calc theta ≤ (t * (19/20)) * (19/20)^(i+1) := this
              _ = t * (19/20)^(i+1+1) := by ring

lemma sched_stop : ∀ (n : ℕ) (t : ℚ), (sched n t).length < n →
    t * (19/20)^((sched n t).length) < theta
  | 0, t, h => absurd h (by simp)
  | n + 1, t, h => by
      unfold sched at h ⊢
      by_cases hs : t * (19/20) < theta
      · rw [if_pos hs] at h ⊢
        simpa [pow_one] using hs
      · rw [if_neg hs] at h ⊢
        simp only [List.length_cons] at h ⊢
        have := sched_stop n (t * (19/20)) (by omega)
        calc t * (19/20)^((sched n (t * (19/20))).length + 1)
            = (t * (19/20)) * (19/20)^((sched n (t * (19/20))).length) := by ring
          _ < theta := this

end Schedule

/-- Claim C4: displacement limiting and the temperature schedule.  With
`len = sqrt(dx² + dy²)` behaving as an exact square root of the displacement's
squared magnitude: a node with displacement of nonzero magnitude moves, before
clamping, by a step that is a nonnegative multiple of the displacement with
squared length exactly `min(len, temperature)²`; a node with zero displacement
does not move.  The loop runs the body once per entry of `sched iterations
temp₀` — at most `iterations` rounds, under temperatures `temp₀ · 0.95^i`,
continuing only while the decayed temperature is at least `1e-4` and stopping
early as soon as it falls below — and `temp₀ = max(W, H)/10`. -/
theorem claim4_displacement_limit_and_schedule
    (rsqrt : ℚ → ℚ) (dv : Vec) (temp len : ℚ)
    (hlen : len = rsqrt (dv.1 * dv.1 + dv.2 * dv.2))
    (hsq : len * len = dv.1 * dv.1 + dv.2 * dv.2)
    (hnn : 0 ≤ len) (htemp : 0 ≤ temp) :
    (dv = 0 → ∀ p : Vec, movePos rsqrt temp dv p = p)
      ∧ (dv ≠ 0 → 0 < len ∧ 0 ≤ min len temp ∧ ∀ p : Vec,
          movePos rsqrt temp dv p
            = (p.1 + (dv.1 / len) * min len temp, p.2 + (dv.2 / len) * min len temp)
          ∧ ((movePos rsqrt temp dv p).1 - p.1) * ((movePos rsqrt temp dv p).1 - p.1)
              + ((movePos rsqrt temp dv p).2 - p.2) * ((movePos rsqrt temp dv p).2 - p.2)
            = min len temp * min len temp)
      ∧ (∀ (k grav W H : ℚ) (edges : List (String × String)) (n : ℕ) (t : ℚ)
            (posl : List (String × Vec)),
          loop k grav W H rsqrt edges n t posl
            = schedFold k grav W H rsqrt edges (sched n t) posl)
      ∧ (∀ (n : ℕ) (t : ℚ), (sched n t).length ≤ n)
      ∧ (∀ (n : ℕ) (t : ℚ) (i : ℕ), i < (sched n t).length →
          (sched n t).getD i 0 = t * (19/20)^i)
      ∧ (∀ (n : ℕ) (t : ℚ) (i : ℕ), i + 1 < (sched n t).length → theta ≤ t * (19/20)^(i+1))
      ∧ (∀ (n : ℕ) (t : ℚ), (sched n t).length < n → t * (19/20)^((sched n t).length) < theta)
      ∧ (∀ W H : ℚ, temp0 W H = max W H / 10) := by
  subst hlen
  refine ⟨?_, ?_,
    fun k grav W H edges n t posl => loop_eq_schedFold k grav W H rsqrt edges n t posl,
    sched_length_le, sched_getD, sched_continue, sched_stop, fun _ _ => rfl⟩
  · intro h p
    subst h
    have hz : rsqrt ((0:Vec).1 * (0:Vec).1 + (0:Vec).2 * (0:Vec).2) = 0 :=
      mul_self_eq_zero.mp (by simpa using hsq)
    unfold movePos
    dsimp only
    rw [if_neg (by rw [hz]; exact lt_irrefl 0)]
  · intro hne
    have hx : dv.1 ≠ 0 ∨ dv.2 ≠ 0 := by
      by_contra hc
      push_neg at hc
      exact hne (Prod.ext hc.1 hc.2)
    have hpos : 0 < dv.1 * dv.1 + dv.2 * dv.2 := by
      rcases hx with h | h
      · nlinarith [mul_self_pos.mpr h, mul_self_nonneg dv.2]
      · nlinarith [mul_self_pos.mpr h, mul_self_nonneg dv.1]
    have hlne : rsqrt (dv.1 * dv.1 + dv.2 * dv.2) ≠ 0 := by
      intro h0
      rw [h0] at hsq
      nlinarith
    have hlpos : 0 < rsqrt (dv.1 * dv.1 + dv.2 * dv.2) :=
      lt_of_le_of_ne hnn (Ne.symm hlne)
    refine ⟨hlpos, le_min (le_of_lt hlpos) htemp, fun p => ?_⟩
    have hmv : movePos rsqrt temp dv p
        = (p.1 + (dv.1 / rsqrt (dv.1 * dv.1 + dv.2 * dv.2))
            * min (rsqrt (dv.1 * dv.1 + dv.2 * dv.2)) temp,
           p.2 + (dv.2 / rsqrt (dv.1 * dv.1 + dv.2 * dv.2))
            * min (rsqrt (dv.1 * dv.1 + dv.2 * dv.2)) temp) := by
      unfold movePos
      dsimp only
      rw [if_pos hlpos]
    refine ⟨hmv, ?_⟩
    rw [hmv]
    dsimp only
    have hstep1 : (p.1 + (dv.1 / rsqrt (dv.1 * dv.1 + dv.2 * dv.2))
        * min (rsqrt (dv.1 * dv.1 + dv.2 * dv.2)) temp) - p.1
        = (dv.1 / rsqrt (dv.1 * dv.1 + dv.2 * dv.2))
            * min (rsqrt (dv.1 * dv.1 + dv.2 * dv.2)) temp := by ring
    have hstep2 : (p.2 + (dv.2 / rsqrt (dv.1 * dv.1 + dv.2 * dv.2))
        * min (rsqrt (dv.1 * dv.1 + dv.2 * dv.2)) temp) - p.2
        = (dv.2 / rsqrt (dv.1 * dv.1 + dv.2 * dv.2))
            * min (rsqrt (dv.1 * dv.1 + dv.2 * dv.2)) temp := by ring
    rw [hstep1, hstep2]
    field_simp
    linear_combination (-(min (rsqrt (dv.1 * dv.1 + dv.2 * dv.2)) temp
      * min (rsqrt (dv.1 * dv.1 + dv.2 * dv.2)) temp)) * hsq

/-- A concrete square-root-like function for witnesses: exact at `25`. -/
def sqrtDemo : ℚ → ℚ := fun q => if q = 25 then 5 else 0

/-- Witness for C4 at `dv = (3,4)`, `len = 5`, `temp = 1`. -/
theorem claim4_witness :
    0 < (5:ℚ) ∧ 0 ≤ min (5:ℚ) 1 ∧ ∀ p : Vec,
      movePos sqrtDemo 1 ((3:ℚ), (4:ℚ)) p
        = (p.1 + ((3:ℚ) / 5) * min (5:ℚ) 1, p.2 + ((4:ℚ) / 5) * min (5:ℚ) 1) ∧
      ((movePos sqrtDemo 1 ((3:ℚ), (4:ℚ)) p).1 - p.1)
          * ((movePos sqrtDemo 1 ((3:ℚ), (4:ℚ)) p).1 - p.1)
        + ((movePos sqrtDemo 1 ((3:ℚ), (4:ℚ)) p).2 - p.2)
          * ((movePos sqrtDemo 1 ((3:ℚ), (4:ℚ)) p).2 - p.2)
        = min (5:ℚ) 1 * min (5:ℚ) 1 :=
  (claim4_displacement_limit_and_schedule sqrtDemo ((3:ℚ), (4:ℚ)) 1 5
    (by norm_num [sqrtDemo]) (by norm_num) (by norm_num) (by norm_num)).2.1
    (by norm_num [Prod.ext_iff])

section DrawOrder

lemma initPositions_counter (W H : ℚ) (rng : ℕ → ℚ) :
    ∀ (ns : List Node) (c : ℕ) (acc posl : List (String × Vec)) (c' : ℕ),
      initPositions W H rng ns c acc = .ok (posl, c') → c' = c + 2 * ns.length
  | [], c, acc, posl, c', h => by
      injection h with h
      rw [Prod.mk.injEq] at h
      simp [← h.2]
  | node :: rest, c, acc, posl, c', h => by
      unfold initPositions at h
      dsimp only at h
      cases hx : toCoord (node.position.getD ⟨none, none⟩).x with
      | ok x =>
          cases hy : toCoord (node.position.getD ⟨none, none⟩).y with
          | ok y =>
              rw [hx, hy] at h
              have := initPositions_counter W H rng rest (c+2) _ posl c' h
              simp only [List.length_cons]
              omega
          | error e => rw [hx, hy] at h; cases h
      | error e => rw [hx] at h; cases h

lemma init_eq_idx (W H : ℚ) (rng : ℕ → ℚ) :
    ∀ (ns : List Node) (i : ℕ) (acc : List (String × Vec)),
      initPositions W H rng ns (2*i) acc
        = (initIdx W H rng ns i acc).map (fun l => (l, 2*i + 2*ns.length))
  | [], i, acc => by
      simp [initPositions, initIdx, Except.map]
  | node :: rest, i, acc => by
      unfold initPositions initIdx
      dsimp only
      cases hx : toCoord (node.position.getD ⟨none, none⟩).x with
      | ok x =>
          cases hy : toCoord (node.position.getD ⟨none, none⟩).y with
          | ok y =>
              dsimp only
              have h2 : 2*i + 2 = 2*(i+1) := by ring
              rw [h2, init_eq_idx W H rng rest (i+1) _]
              have h3 : 2*(i+1) + 2*rest.length = 2*i + 2*(node :: rest).length := by
                simp only [List.length_cons]
                ring
              rw [h3]
          | error e => rfl
      | error e => rfl

lemma norm_eq_idx (W H margin : ℚ) (rng : ℕ → ℚ) (eps : ℚ) (nn : ℕ) :
    ∀ (ns : List Node) (i : ℕ) (posl : List (String × Vec)),
      normLoop W H margin rng eps ns posl (2*nn + 2*i)
        = normIdx W H margin rng eps nn ns i posl
  | [], i, posl => rfl
  | node :: rest, i, posl => by
      unfold normLoop normIdx
      dsimp only
      cases hp : List.lookup node.id posl with
      | some p =>
          dsimp only
          have h2 : 2*nn + 2*i + 2 = 2*nn + 2*(i+1) := by ring
          rw [h2, norm_eq_idx W H margin rng eps nn rest (i+1) _]
      | none => rfl

lemma init_congr (W H : ℚ) (rng rng' : ℕ → ℚ) :
    ∀ (ns : List Node) (c : ℕ) (acc : List (String × Vec)),
      (∀ j, j < c + 2*ns.length → rng j = rng' j) →
      initPositions W H rng ns c acc = initPositions W H rng' ns c acc
  | [], c, acc, _ => rfl
  | node :: rest, c, acc, hagr => by
      unfold initPositions
      dsimp only
      rw [hagr c (by simp only [List.length_cons]; omega),
        hagr (c+1) (by simp only [List.length_cons]; omega)]
      cases hx : toCoord (node.position.getD ⟨none, none⟩).x with
      | ok x =>
          cases hy : toCoord (node.position.getD ⟨none, none⟩).y with
          | ok y =>
              dsimp only
              exact init_congr W H rng rng' rest (c+2) _
                (fun j hj => hagr j (by simp only [List.length_cons] at hj ⊢; omega))
          | error e => rfl
      | error e => rfl

lemma norm_congr (W H margin : ℚ) (rng rng' : ℕ → ℚ) (eps : ℚ) :
    ∀ (ns : List Node) (posl : List (String × Vec)) (c : ℕ),
      (∀ j, j < c + 2*ns.length → rng j = rng' j) →
      normLoop W H margin rng eps ns posl c = normLoop W H margin rng' eps ns posl c
  | [], posl, c, _ => rfl
  | node :: rest, posl, c, hagr => by
      unfold normLoop
      dsimp only
      cases hp : List.lookup node.id posl with
      | some p =>
          dsimp only
          rw [hagr c (by simp only [List.length_cons]; omega),
            hagr (c+1) (by simp only [List.length_cons]; omega)]
          rw [norm_congr W H margin rng rng' eps rest _ (c+2)
            (fun j hj => hagr j (by simp only [List.length_cons] at hj ⊢; omega))]
      | none => rfl

/-- Claim C5: `run_layout` is deterministic and consumes the seeded stream in
a fixed order.  The generator is modelled as the abstract stream of
`random.Random(42)` draws; determinism is expressed by the output depending
only on the first `4·n` draws of that fixed stream (two independent runs whose
streams agree there produce identical output), and the draw order by equality
with the indexed variant, in which the node at list position `i` consumes
draws `2i, 2i+1` during initialization and `2n+2i, 2n+2i+1` during
normalization; the relaxation loop consumes no draws. -/
theorem claim5_determinism_and_draw_order
    (rsqrt : ℚ → ℚ) (rng rng' : ℕ → ℚ) (nodes : List Node) (iterations : ℤ) (margin : ℚ)
    (hagree : ∀ j, j < 4 * nodes.length → rng j = rng' j) :
    run_layout rsqrt rng nodes iterations margin
        = run_layout rsqrt rng' nodes iterations margin
      ∧ run_layout rsqrt rng nodes iterations margin
        = run_layoutIdx rsqrt rng nodes iterations margin := by
  constructor
  · unfold run_layout
    by_cases hm : 1 - 2*margin ≤ 0
    · rw [if_pos hm, if_pos hm]
    · rw [if_neg hm, if_neg hm]
      unfold layoutMain
      dsimp only
      rw [init_congr (1-2*margin) (1-2*margin) rng rng' nodes 0 []
        (fun j hj => hagree j (by omega))]
      cases hinit : initPositions (1-2*margin) (1-2*margin) rng' nodes 0 [] with
      | ok pc =>
          obtain ⟨posl, c⟩ := pc
          dsimp only
          have hc := initPositions_counter (1-2*margin) (1-2*margin) rng' nodes 0 [] posl c hinit
          cases hloop : loop (kVal rsqrt (1-2*margin) (1-2*margin) nodes.length)
              (gravVal (kVal rsqrt (1-2*margin) (1-2*margin) nodes.length))
              (1-2*margin) (1-2*margin) rsqrt (edgeIterList nodes)
              iterations.toNat (temp0 (1-2*margin) (1-2*margin)) posl with
          | ok posl' =>
              dsimp only
              exact norm_congr (1-2*margin) (1-2*margin) margin rng rng' _ nodes posl' c
                (fun j hj => hagree j (by omega))
          | error msg => rfl
      | error msg => rfl
  · unfold run_layout run_layoutIdx
    by_cases hm : 1 - 2*margin ≤ 0
    · rw [if_pos hm, if_pos hm]
    · rw [if_neg hm, if_neg hm]
      unfold layoutMain
      dsimp only
      have h0 : initPositions (1-2*margin) (1-2*margin) rng nodes 0 []
          = (initIdx (1-2*margin) (1-2*margin) rng nodes 0 []).map
              (fun l => (l, 2*nodes.length)) := by
        simpa using init_eq_idx (1-2*margin) (1-2*margin) rng nodes 0 []
      rw [h0]
      cases hI : initIdx (1-2*margin) (1-2*margin) rng nodes 0 [] with
      | ok posl =>
          simp only [Except.map]
          cases hloop : loop (kVal rsqrt (1-2*margin) (1-2*margin) nodes.length)
              (gravVal (kVal rsqrt (1-2*margin) (1-2*margin) nodes.length))
              (1-2*margin) (1-2*margin) rsqrt (edgeIterList nodes)
              iterations.toNat (temp0 (1-2*margin) (1-2*margin)) posl with
          | ok posl' =>
              dsimp only
              have := norm_eq_idx (1-2*margin) (1-2*margin) margin rng
                (min (1-2*margin) (1-2*margin) * (1/1000)) nodes.length nodes 0 posl'
              simpa using this
          | error msg => rfl
      | error msg => simp [Except.map]

/-- Witness for C5: two streams agreeing on the four consumed draws. -/
theorem claim5_witness :
    run_layout (fun _ => 1) (fun j => if j < 4 then (1:ℚ)/2 else 0)
        [⟨"a", none, []⟩] 0 0
      = run_layout (fun _ => 1) (fun _ => (1:ℚ)/2) [⟨"a", none, []⟩] 0 0
      ∧ run_layout (fun _ => 1) (fun j => if j < 4 then (1:ℚ)/2 else 0)
          [⟨"a", none, []⟩] 0 0
        = run_layoutIdx (fun _ => 1) (fun j => if j < 4 then (1:ℚ)/2 else 0)
            [⟨"a", none, []⟩] 0 0 :=
  claim5_determinism_and_draw_order (fun _ => 1)
    (fun j => if j < 4 then (1:ℚ)/2 else 0) (fun _ => (1:ℚ)/2)
    [⟨"a", none, []⟩] 0 0
    (by
      intro j hj
      have hj4 : j < 4 := by simpa using hj
      simp [hj4])

end DrawOrder

section EdgeSet

lemma sortPair_comm (a b : String) : sortPair a b = sortPair b a := by
  unfold sortPair
  by_cases h1 : a ≤ b <;> by_cases h2 : b ≤ a
  · rw [if_pos h1, if_pos h2, le_antisymm h1 h2]
  · rw [if_pos h1, if_neg h2]
  · rw [if_neg h1, if_pos h2]
  · exact absurd (le_total a b) (by simp [h1, h2])

lemma sortPair_fst_le_snd (a b : String) : (sortPair a b).1 ≤ (sortPair a b).2 := by
  unfold sortPair
  by_cases h : a ≤ b
  · rw [if_pos h]
    exact h
  · rw [if_neg h]
    exact le_of_lt (lt_of_not_le h)

lemma sortPair_self (a : String) : sortPair a a = (a, a) := by
  unfold sortPair
  rw [if_pos (le_refl a)]

lemma mem_connFold (id : String) :
    ∀ (conns : List ConnEntry) (acc : Finset (String × String)) (p : String × String),
      (p ∈ conns.foldl (fun edges target =>
          match target with
          | .str s => insert (sortPair id s) edges
          | .nonstr => edges) acc)
        ↔ p ∈ acc ∨ ∃ s, ConnEntry.str s ∈ conns ∧ p = sortPair id s
  | [], acc, p => by simp
  | ConnEntry.str s0 :: cs, acc, p => by
      rw [List.foldl_cons]
      rw [mem_connFold id cs (insert (sortPair id s0) acc) p]
      simp only [Finset.mem_insert, List.mem_cons, ConnEntry.str.injEq]
      constructor
      · rintro ((h | h) | ⟨s, hs, hp⟩)
        · exact Or.inr ⟨s0, Or.inl rfl, h⟩
        · exact Or.inl h
        · exact Or.inr ⟨s, Or.inr hs, hp⟩
      · rintro (h | ⟨s, (rfl | hs), hp⟩)
        · exact Or.inl (Or.inr h)
        · exact Or.inl (Or.inl hp)
        · exact Or.inr ⟨s, hs, hp⟩
  | ConnEntry.nonstr :: cs, acc, p => by
      rw [List.foldl_cons]
      rw [mem_connFold id cs acc p]
      simp

lemma mem_build_edges_aux :
    ∀ (nodes : List Node) (acc : Finset (String × String)) (p : String × String),
      (p ∈ nodes.foldl (fun edges node =>
          node.connections.foldl (fun edges target =>
            match target with
            | .str s => insert (sortPair node.id s) edges
            | .nonstr => edges) edges) acc)
        ↔ p ∈ acc ∨ ∃ nd ∈ nodes, ∃ s, ConnEntry.str s ∈ nd.connections ∧ p = sortPair nd.id s
  | [], acc, p => by simp
  | node :: rest, acc, p => by
      rw [List.foldl_cons]
      rw [mem_build_edges_aux rest _ p, mem_connFold node.id node.connections acc p]
      simp only [List.mem_cons]
      constructor
      · rintro ((h | ⟨s, hs, hp⟩) | ⟨nd, hnd, s, hs, hp⟩)
        · exact Or.inl h
        · exact Or.inr ⟨node, Or.inl rfl, s, hs, hp⟩
        · exact Or.inr ⟨nd, Or.inr hnd, s, hs, hp⟩
      · rintro (h | ⟨nd, (rfl | hnd), s, hs, hp⟩)
        · exact Or.inl (Or.inl h)
        · exact Or.inl (Or.inr ⟨s, hs, hp⟩)
        · exact Or.inr ⟨nd, hnd, s, hs, hp⟩

lemma mem_build_edges (nodes : List Node) (p : String × String) :
    p ∈ build_edges nodes
      ↔ ∃ nd ∈ nodes, ∃ s, ConnEntry.str s ∈ nd.connections ∧ p = sortPair nd.id s := by
  unfold build_edges
  rw [mem_build_edges_aux nodes ∅ p]
  simp

end EdgeSet

/-- Counterexample to claim C6 as stated: a node that lists its own id.
`build_edges` has no equal-endpoint filter — `pair = tuple(sorted((node["id"],
target)))` is inserted unconditionally — so the self-loop `("a", "a")` is
produced, an edge with equal endpoints. -/
theorem claim6_counterexample :
    ("a", "a") ∈ build_edges [⟨"a", none, [ConnEntry.str "a"]⟩]
      ∧ (("a", "a") : String × String).1 = ("a", "a").2 := by
  refine ⟨?_, rfl⟩
  rw [mem_build_edges]
  exact ⟨_, List.mem_cons_self _ _, "a", List.mem_cons_self _ _, (sortPair_self "a").symm⟩

/-- Claim C6 (amended): `build_edges` returns the deduplicated undirected edge
set — endpoints stored in canonical sorted order, `(a,b)` and `(b,a)`
collapsing to one entry, membership characterized by the §3 reference
definition, duplicate neighbor references creating no new edge, non-string
entries ignored — but pairs with equal identifiers are NOT skipped: a node
listing its own id produces the self-loop `(id, id)`. -/
theorem claim6_edge_set (nodes : List Node) :
    (∀ p ∈ build_edges nodes, p.1 ≤ p.2)
      ∧ (∀ a b : String, sortPair a b = sortPair b a)
      ∧ (∀ p : String × String, p ∈ build_edges nodes ↔
          ∃ nd ∈ nodes, ∃ s, ConnEntry.str s ∈ nd.connections ∧ p = sortPair nd.id s)
      ∧ (∀ (pre post : List Node) (nd : Node) (t : ConnEntry), t ∈ nd.connections →
          build_edges (pre ++ { nd with connections := nd.connections ++ [t] } :: post)
            = build_edges (pre ++ nd :: post))
      ∧ (∀ nd ∈ nodes, ConnEntry.str nd.id ∈ nd.connections →
          (nd.id, nd.id) ∈ build_edges nodes) := by
  refine ⟨?_, sortPair_comm, mem_build_edges nodes, ?_, ?_⟩
  · intro p hp
    obtain ⟨nd, _, s, _, rfl⟩ := (mem_build_edges nodes p).mp hp
    exact sortPair_fst_le_snd nd.id s
  · intro pre post nd t ht
    apply Finset.ext
    intro p
    rw [mem_build_edges, mem_build_edges]
    constructor
    · rintro ⟨nd', hmem, s, hs, hp⟩
      rcases List.mem_append.mp hmem with hpre | hcons
      · exact ⟨nd', List.mem_append_left _ hpre, s, hs, hp⟩
      · rcases List.mem_cons.mp hcons with rfl | hpost
        · refine ⟨nd, List.mem_append_right _ (List.mem_cons_self _ _), s, ?_, hp⟩
          rcases List.mem_append.mp hs with h | h
          · exact h
          · rw [List.mem_singleton.mp h]
            exact ht
        · exact ⟨nd', List.mem_append_right _ (List.mem_cons_of_mem _ hpost), s, hs, hp⟩
    · rintro ⟨nd', hmem, s, hs, hp⟩
      rcases List.mem_append.mp hmem with hpre | hcons
      · exact ⟨nd', List.mem_append_left _ hpre, s, hs, hp⟩
      · rcases List.mem_cons.mp hcons with rfl | hpost
        · exact ⟨{ nd' with connections := nd'.connections ++ [t] },
            List.mem_append_right _ (List.mem_cons_self _ _), s,
            List.mem_append_left _ hs, hp⟩
        · exact ⟨nd', List.mem_append_right _ (List.mem_cons_of_mem _ hpost), s, hs, hp⟩
  · intro nd hnd hconn
    rw [mem_build_edges]
    exact ⟨nd, hnd, nd.id, hconn, (sortPair_self nd.id).symm⟩

/-- Witness for C6 (amended) at concrete inputs. -/
theorem claim6_witness :
    (∀ p ∈ build_edges [⟨"a", none, [ConnEntry.str "b", ConnEntry.nonstr]⟩], p.1 ≤ p.2)
      ∧ sortPair "x" "y" = sortPair "y" "x"
      ∧ build_edges ([] ++ (⟨"b", none, [ConnEntry.str "c", ConnEntry.str "c"]⟩ : Node) :: [])
          = build_edges ([] ++ (⟨"b", none, [ConnEntry.str "c"]⟩ : Node) :: [])
      ∧ ("c", "c") ∈ build_edges [⟨"c", none, [ConnEntry.str "c"]⟩] :=
  ⟨(claim6_edge_set [⟨"a", none, [ConnEntry.str "b", ConnEntry.nonstr]⟩]).1,
    (claim6_edge_set []).2.1 "x" "y",
    (claim6_edge_set []).2.2.2.1 [] [] ⟨"b", none, [ConnEntry.str "c"]⟩
      (ConnEntry.str "c") (List.mem_cons_self _ _),
    (claim6_edge_set [⟨"c", none, [ConnEntry.str "c"]⟩]).2.2.2.2
      ⟨"c", none, [ConnEntry.str "c"]⟩ (List.mem_cons_self _ _) (List.mem_cons_self _ _)⟩

/-- Claim C7: for every margin with `1 - 2·margin ≤ 0` (margin ≥ 0.5),
`run_layout` fails fast with the fatal configuration error before any layout
work — no output node list is produced; for margin < 0.5 the configuration
check passes and the layout pipeline proceeds. -/
theorem claim7_margin_guard
    (rsqrt : ℚ → ℚ) (rng : ℕ → ℚ) (nodes : List Node) (iterations : ℤ) (margin : ℚ) :
    (1 - 2*margin ≤ 0 →
        run_layout rsqrt rng nodes iterations margin
          = .error ("Margin too large; layout area collapsed.")
        ∧ ∀ out, run_layout rsqrt rng nodes iterations margin ≠ .ok out)
      ∧ (margin < 1/2 →
          run_layout rsqrt rng nodes iterations margin
            = layoutMain rsqrt rng nodes iterations margin) := by
  constructor
  · intro h
    constructor
    · unfold run_layout
      rw [if_pos h]
    · intro out hout
      unfold run_layout at hout
      rw [if_pos h] at hout
      cases hout
  · intro h
    unfold run_layout
    rw [if_neg (by linarith)]

/-- Witness for C7 at margins `3/5` (rejected) and `1/5` (accepted). -/
theorem claim7_witness :
    run_layout (fun _ => 1) (fun _ => 0) [] 0 (3/5)
        = .error ("Margin too large; layout area collapsed.")
      ∧ run_layout (fun _ => 1) (fun _ => 0) [] 0 (1/5)
        = layoutMain (fun _ => 1) (fun _ => 0) [] 0 (1/5) :=
  ⟨((claim7_margin_guard (fun _ => 1) (fun _ => 0) [] 0 (3/5)).1 (by norm_num)).1,
    (claim7_margin_guard (fun _ => 1) (fun _ => 0) [] 0 (1/5)).2 (by norm_num)⟩

/-- Counterexample to claim C8 as stated: a node whose position `x` field holds
a value `float(...)` cannot convert.  The script calls
`float(pos.get("x", 0.5))` — the default applies only to a missing key, and a
present non-convertible value makes `float` raise, so `run_layout` errors
instead of substituting the center default. -/
theorem claim8_counterexample :
    run_layout (fun _ => 1) (fun _ => 1/2)
        [⟨"a", some ⟨some CoordVal.nonnum, none⟩, []⟩] 0 0
      = .error ("could not convert value to float") := by
  norm_num [run_layout, layoutMain, initPositions, toCoord]

/-- Claim C8 (amended): a missing `position` object, or missing `x`/`y` keys,
default to the center coordinate `0.5` and raise no error; but a present
`x`/`y` value that `float(...)` cannot convert raises an uncaught conversion
error instead of being defaulted. -/
theorem claim8_position_defaults
    (W H : ℚ) (rng : ℕ → ℚ) (node : Node) (rest : List Node) (c : ℕ)
    (acc : List (String × Vec)) :
    (node.position = none →
        initPositions W H rng (node :: rest) c acc
          = initPositions W H rng rest (c+2)
              (upsert node.id ((1/2 - 1/2) * W + (rng c - 1/2) * W * (1/20),
                (1/2 - 1/2) * H + (rng (c+1) - 1/2) * H * (1/20)) acc))
      ∧ (∀ po : PosObj, node.position = some po → po.x = none → po.y = none →
          initPositions W H rng (node :: rest) c acc
            = initPositions W H rng rest (c+2)
                (upsert node.id ((1/2 - 1/2) * W + (rng c - 1/2) * W * (1/20),
                  (1/2 - 1/2) * H + (rng (c+1) - 1/2) * H * (1/20)) acc))
      ∧ (∀ po : PosObj, node.position = some po → po.x = some CoordVal.nonnum →
          initPositions W H rng (node :: rest) c acc
            = .error ("could not convert value to float"))
      ∧ (∀ (po : PosObj) (q : ℚ), node.position = some po → po.x = some (.fnum q) →
          po.y = some CoordVal.nonnum →
          initPositions W H rng (node :: rest) c acc
            = .error ("could not convert value to float")) := by
  refine ⟨?_, ?_, ?_, ?_⟩
  · intro h
    simp only [initPositions, h, Option.getD_none, toCoord]
  · intro po h hx hy
    simp only [initPositions, h, Option.getD_some, hx, hy, toCoord]
  · intro po h hx
    simp only [initPositions, h, Option.getD_some, hx, toCoord]
  · intro po q h hx hy
    simp only [initPositions, h, Option.getD_some, hx, hy, toCoord]

/-- Witness for C8 (amended) at concrete nodes. -/
theorem claim8_witness :
    (initPositions 1 1 (fun _ => (1:ℚ)/2) [⟨"a", none, []⟩] 0 []
        = initPositions 1 1 (fun _ => (1:ℚ)/2) [] (0+2)
            (upsert "a" (((1:ℚ)/2 - 1/2) * 1 + ((1:ℚ)/2 - 1/2) * 1 * (1/20),
              ((1:ℚ)/2 - 1/2) * 1 + ((1:ℚ)/2 - 1/2) * 1 * (1/20)) []))
      ∧ (initPositions 1 1 (fun _ => (1:ℚ)/2)
            [⟨"b", some ⟨some CoordVal.nonnum, none⟩, []⟩] 0 []
          = .error ("could not convert value to float")) :=
  ⟨(claim8_position_defaults 1 1 (fun _ => (1:ℚ)/2) ⟨"a", none, []⟩ [] 0 []).1 rfl,
    (claim8_position_defaults 1 1 (fun _ => (1:ℚ)/2)
      ⟨"b", some ⟨some CoordVal.nonnum, none⟩, []⟩ [] 0 []).2.2.1
      ⟨some CoordVal.nonnum, none⟩ rfl rfl⟩

section Dangling

lemma sortPair_cases (a b : String) :
    sortPair a b = (a, b) ∨ sortPair a b = (b, a) := by
  unfold sortPair
  by_cases h : a ≤ b
  · exact Or.inl (if_pos h)
  · exact Or.inr (if_neg h)

lemma mem_connFoldL (id : String) :
    ∀ (conns : List ConnEntry) (acc : List (String × String)) (p : String × String),
      (p ∈ conns.foldl (fun acc target =>
          match target with
          | .str s => acc ++ [sortPair id s]
          | .nonstr => acc) acc)
        ↔ p ∈ acc ∨ ∃ s, ConnEntry.str s ∈ conns ∧ p = sortPair id s
  | [], acc, p => by simp
  | ConnEntry.str s0 :: cs, acc, p => by
      rw [List.foldl_cons]
      rw [mem_connFoldL id cs (acc ++ [sortPair id s0]) p]
      simp only [List.mem_append, List.mem_singleton, List.mem_cons, ConnEntry.str.injEq,
        List.not_mem_nil, or_false]
      constructor
      · rintro ((h | h) | ⟨s, hs, hp⟩)
        · exact Or.inl h
        · exact Or.inr ⟨s0, Or.inl rfl, h⟩
        · exact Or.inr ⟨s, Or.inr hs, hp⟩
      · rintro (h | ⟨s, (rfl | hs), hp⟩)
        · exact Or.inl (Or.inl h)
        · exact Or.inl (Or.inr hp)
        · exact Or.inr ⟨s, hs, hp⟩
  | ConnEntry.nonstr :: cs, acc, p => by
      rw [List.foldl_cons]
      rw [mem_connFoldL id cs acc p]
      simp

lemma mem_buildEdgesList_aux :
    ∀ (nodes : List Node) (acc : List (String × String)) (p : String × String),
      (p ∈ nodes.foldl (fun acc node =>
          node.connections.foldl (fun acc target =>
            match target with
            | .str s => acc ++ [sortPair node.id s]
            | .nonstr => acc) acc) acc)
        ↔ p ∈ acc ∨ ∃ nd ∈ nodes, ∃ s, ConnEntry.str s ∈ nd.connections ∧ p = sortPair nd.id s
  | [], acc, p => by simp
  | node :: rest, acc, p => by
      rw [List.foldl_cons]
      rw [mem_buildEdgesList_aux rest _ p, mem_connFoldL node.id node.connections acc p]
      simp only [List.mem_cons]
      constructor
      · rintro ((h | ⟨s, hs, hp⟩) | ⟨nd, hnd, s, hs, hp⟩)
        · exact Or.inl h
        · exact Or.inr ⟨node, Or.inl rfl, s, hs, hp⟩
        · exact Or.inr ⟨nd, Or.inr hnd, s, hs, hp⟩
      · rintro (h | ⟨nd, (rfl | hnd), s, hs, hp⟩)
        · exact Or.inl (Or.inl h)
        · exact Or.inl (Or.inr ⟨s, hs, hp⟩)
        · exact Or.inr ⟨nd, hnd, s, hs, hp⟩

lemma mem_edgeIterList (nodes : List Node) (p : String × String) :
    p ∈ edgeIterList nodes
      ↔ ∃ nd ∈ nodes, ∃ s, ConnEntry.str s ∈ nd.connections ∧ p = sortPair nd.id s := by
  unfold edgeIterList buildEdgesList
  rw [List.mem_dedup, mem_buildEdgesList_aux nodes [] p]
  simp

lemma attrFold_error (k : ℚ) (rsqrt : ℚ → ℚ) (posl : List (String × Vec)) :
    ∀ (edges : List (String × String)) (d : String → Vec),
      (∃ e ∈ edges, List.lookup e.1 posl = none ∨ List.lookup e.2 posl = none) →
      ∃ msg, attrFold k rsqrt posl edges d = .error msg
  | [], d, h => by
      obtain ⟨e, he, _⟩ := h
      cases he
  | (a, b) :: rest, d, h => by
      unfold attrFold
      cases hA : List.lookup a posl with
      | none => exact ⟨_, rfl⟩
      | some pa =>
          cases hB : List.lookup b posl with
          | none => exact ⟨_, rfl⟩
          | some pb =>
              dsimp only
              apply attrFold_error k rsqrt posl rest
              obtain ⟨e, he, hor⟩ := h
              rcases List.mem_cons.mp he with rfl | he'
              · rcases hor with h1 | h1
                · rw [hA] at h1
                  cases h1
                · rw [hB] at h1
                  cases h1
              · exact ⟨e, he', hor⟩

end Dangling

/-- Counterexample to claim C9 as stated: with `iterations = 0` the relaxation
loop — and with it the attraction pass that performs the failing lookup —
never runs, so a dangling connection reference `"zzz"` raises no error and
output positions are produced. -/
theorem claim9_counterexample :
    run_layout (fun _ => 1) (fun _ => 1/2) [⟨"a", none, [ConnEntry.str "zzz"]⟩] 0 0
      = .ok [⟨"a", some ⟨some (.fnum ((1:ℚ)/2)), some (.fnum ((1:ℚ)/2))⟩,
          [ConnEntry.str "zzz"]⟩] := by
  norm_num [run_layout, layoutMain, initPositions, toCoord, upsert, loop, Int.toNat_zero,
    normLoop, round5, rhe, round_eq, List.lookup, min_self]

/-- Claim C9 (amended): provided at least one relaxation iteration executes
(`iterations ≥ 1`), a connection naming an identifier not present among the
node identifiers makes `run_layout` raise an error — the first iteration's
attraction pass looks the dangling endpoint up in the positions dict and
fails — and no output positions are produced (an `error` result carries no
node list). -/
theorem claim9_dangling_reference
    (rsqrt : ℚ → ℚ) (rng : ℕ → ℚ) (nodes : List Node) (iterations : ℤ) (margin : ℚ)
    (hit : 1 ≤ iterations)
    (hdang : ∃ nd ∈ nodes, ∃ t, ConnEntry.str t ∈ nd.connections ∧
      t ∉ nodes.map Node.id) :
    ∃ msg, run_layout rsqrt rng nodes iterations margin = .error msg := by
  unfold run_layout
  by_cases hm : 1 - 2*margin ≤ 0
  · rw [if_pos hm]
    exact ⟨_, rfl⟩
  · rw [if_neg hm]
    unfold layoutMain
    dsimp only
    cases hinit : initPositions (1-2*margin) (1-2*margin) rng nodes 0 [] with
    | error e => exact ⟨e, rfl⟩
    | ok pc =>
        obtain ⟨posl, c⟩ := pc
        dsimp only
        obtain ⟨nd, hnd, t, hconn, ht⟩ := hdang
        have hkeys := initPositions_keys (1-2*margin) (1-2*margin) rng nodes 0 [] posl c hinit
        have htnone : List.lookup t posl = none := by
          rw [← Option.not_isSome_iff_eq_none, hkeys t]
          simp [ht, List.lookup]
        have hedge : sortPair nd.id t ∈ edgeIterList nodes :=
          (mem_edgeIterList nodes _).mpr ⟨nd, hnd, t, hconn, rfl⟩
        have hmiss : List.lookup (sortPair nd.id t).1 posl = none ∨
            List.lookup (sortPair nd.id t).2 posl = none := by
          rcases sortPair_cases nd.id t with h | h
          · rw [h]
            exact Or.inr htnone
          · rw [h]
            exact Or.inl htnone
        obtain ⟨msg, hattr⟩ := attrFold_error
          (kVal rsqrt (1-2*margin) (1-2*margin) nodes.length) rsqrt posl
          (edgeIterList nodes)
          ((pairsUpper posl).foldl
            (applyRep (kVal rsqrt (1-2*margin) (1-2*margin) nodes.length) rsqrt) zeroDisp)
          ⟨_, hedge, hmiss⟩
        have hcd : computeDisp (kVal rsqrt (1-2*margin) (1-2*margin) nodes.length)
            (gravVal (kVal rsqrt (1-2*margin) (1-2*margin) nodes.length)) rsqrt posl
            (edgeIterList nodes) = .error msg := by
          unfold computeDisp
          dsimp only
          rw [hattr]
        have hib : iterBody (kVal rsqrt (1-2*margin) (1-2*margin) nodes.length)
            (gravVal (kVal rsqrt (1-2*margin) (1-2*margin) nodes.length))
            (1-2*margin) (1-2*margin) rsqrt (edgeIterList nodes)
            (temp0 (1-2*margin) (1-2*margin)) posl = .error msg := by
          unfold iterBody
          rw [hcd]
        obtain ⟨m, hm2⟩ : ∃ m, iterations.toNat = m + 1 :=
          ⟨iterations.toNat - 1, by omega⟩
        refine ⟨msg, ?_⟩
        rw [hm2]
        unfold loop
        rw [hib]

/-- Witness for C9 (amended): a one-node list with a dangling reference and
one iteration. -/
theorem claim9_witness :
    ∃ msg, run_layout (fun _ => 1) (fun _ => 1/2)
        [⟨"a", none, [ConnEntry.str "zzz"]⟩] 1 0 = .error msg :=
  claim9_dangling_reference (fun _ => 1) (fun _ => 1/2)
    [⟨"a", none, [ConnEntry.str "zzz"]⟩] 1 0 (by norm_num)
    ⟨⟨"a", none, [ConnEntry.str "zzz"]⟩, List.mem_cons_self _ _, "zzz",
      List.mem_cons_self _ _, by decide⟩

section Pipeline

lemma toCoord_ok (o : Option CoordVal) (h : o ≠ some CoordVal.nonnum) :
    ∃ q, toCoord o = .ok q := by
  match o with
  | none => exact ⟨1/2, rfl⟩
  | some (.fnum q) => exact ⟨q, rfl⟩
  | some .nonnum => exact absurd rfl h

lemma initPositions_ok (W H : ℚ) (rng : ℕ → ℚ) :
    ∀ (ns : List Node) (c : ℕ) (acc : List (String × Vec)),
      (∀ nd ∈ ns, (nd.position.getD ⟨none, none⟩).x ≠ some CoordVal.nonnum ∧
        (nd.position.getD ⟨none, none⟩).y ≠ some CoordVal.nonnum) →
      ∃ posl c', initPositions W H rng ns c acc = .ok (posl, c')
  | [], c, acc, _ => ⟨acc, c, rfl⟩
  | node :: rest, c, acc, hwf => by
      obtain ⟨hx, hy⟩ := hwf node (List.mem_cons_self _ _)
      obtain ⟨qx, hqx⟩ := toCoord_ok _ hx
      obtain ⟨qy, hqy⟩ := toCoord_ok _ hy
      obtain ⟨posl, c', h⟩ := initPositions_ok W H rng rest (c+2)
        (upsert node.id ((qx - 1/2) * W + (rng c - 1/2) * W * (1/20),
          (qy - 1/2) * H + (rng (c+1) - 1/2) * H * (1/20)) acc)
        (fun nd hnd => hwf nd (List.mem_cons_of_mem _ hnd))
      refine ⟨posl, c', ?_⟩
      simp only [initPositions, hqx, hqy]
      exact h

lemma normLoop_ok (W H margin : ℚ) (rng : ℕ → ℚ) (eps : ℚ) :
    ∀ (ns : List Node) (posl : List (String × Vec)) (c : ℕ),
      (∀ nd ∈ ns, (List.lookup nd.id posl).isSome) →
      ∃ out, normLoop W H margin rng eps ns posl c = .ok out ∧
        out.length = ns.length ∧
        ∀ (i : ℕ) (hi : i < out.length) (hi2 : i < ns.length),
          (out.get ⟨i, hi⟩).id = (ns.get ⟨i, hi2⟩).id ∧
          ∃ x y : ℚ, (out.get ⟨i, hi⟩).position
            = some ⟨some (.fnum x), some (.fnum y)⟩
  | [], posl, c, _ => ⟨[], rfl, rfl, fun i hi _ => absurd hi (by simp)⟩
  | node :: rest, posl, c, hpre => by
      obtain ⟨p, hp⟩ := Option.isSome_iff_exists.mp (hpre node (List.mem_cons_self _ _))
      obtain ⟨out', hrec, hlen, hshape⟩ := normLoop_ok W H margin rng eps rest
        (upsert node.id (p.1 + (rng c - 1/2) * eps, p.2 + (rng (c+1) - 1/2) * eps) posl)
        (c+2)
        (fun nd hnd => (lookup_upsert_isSome node.id nd.id _ posl).mpr
          (Or.inr (hpre nd (List.mem_cons_of_mem _ hnd))))
      refine ⟨(⟨node.id, some
          ⟨some (.fnum (round5 (margin + ((p.1 + (rng c - 1/2) * eps)/W + 1/2) * W))),
           some (.fnum (round5 (margin + ((p.2 + (rng (c+1) - 1/2) * eps)/H + 1/2) * H)))⟩,
          node.connections⟩ : Node) :: out', ?_, ?_, ?_⟩
      · simp only [normLoop, hp]
        rw [hrec]
      · simp [hlen]
      · intro i hi hi2
        match i with
        | 0 => exact ⟨rfl, _, _, rfl⟩
        | i + 1 =>
            exact hshape i (Nat.lt_of_succ_lt_succ hi) (Nat.lt_of_succ_lt_succ hi2)

end Pipeline

/-- Claim C10: with `iterations ≤ 0` the relaxation loop body never executes
(`range` of a non-positive count is empty, modelled by `Int.toNat = 0`), so no
dangling-reference lookup can raise; `run_layout` reduces to initialization
followed by normalization, and — whenever the position data converts — every
node's position is still overwritten with a freshly rounded pair: the
initialization jitter and the final normalization jitter are both applied and
the result rescaled and rounded to 5 decimals as usual. -/
theorem claim10_zero_iterations
    (rsqrt : ℚ → ℚ) (rng : ℕ → ℚ) (nodes : List Node) (iterations : ℤ) (margin : ℚ)
    (hit : iterations ≤ 0) (hm : margin < 1/2) :
    (run_layout rsqrt rng nodes iterations margin
        = match initPositions (1-2*margin) (1-2*margin) rng nodes 0 [] with
          | .ok (posl, c) => normLoop (1-2*margin) (1-2*margin) margin rng
              (min (1-2*margin) (1-2*margin) * (1/1000)) nodes posl c
          | .error e => .error e)
      ∧ ((∀ nd ∈ nodes, (nd.position.getD ⟨none, none⟩).x ≠ some CoordVal.nonnum ∧
            (nd.position.getD ⟨none, none⟩).y ≠ some CoordVal.nonnum) →
          ∃ out, run_layout rsqrt rng nodes iterations margin = .ok out ∧
            out.length = nodes.length ∧
            ∀ (i : ℕ) (hi : i < out.length) (hi2 : i < nodes.length),
              (out.get ⟨i, hi⟩).id = (nodes.get ⟨i, hi2⟩).id ∧
              ∃ x y : ℚ, (out.get ⟨i, hi⟩).position
                = some ⟨some (.fnum x), some (.fnum y)⟩) := by
  have hguard : ¬ (1 - 2*margin ≤ 0) := by linarith
  have htn : iterations.toNat = 0 := by omega
  have hmain : run_layout rsqrt rng nodes iterations margin
      = match initPositions (1-2*margin) (1-2*margin) rng nodes 0 [] with
        | .ok (posl, c) => normLoop (1-2*margin) (1-2*margin) margin rng
            (min (1-2*margin) (1-2*margin) * (1/1000)) nodes posl c
        | .error e => .error e := by
    unfold run_layout
    rw [if_neg hguard]
    unfold layoutMain
    dsimp only
    rw [htn]
    cases hinit : initPositions (1-2*margin) (1-2*margin) rng nodes 0 [] with
    | ok pc =>
        obtain ⟨posl, c⟩ := pc
        rfl
    | error e => rfl
  refine ⟨hmain, fun hwf => ?_⟩
  obtain ⟨posl, c', hinit⟩ := initPositions_ok (1-2*margin) (1-2*margin) rng nodes 0 [] hwf
  have hkeys := initPositions_keys (1-2*margin) (1-2*margin) rng nodes 0 [] posl c' hinit
  obtain ⟨out, hnorm, hlen, hshape⟩ := normLoop_ok (1-2*margin) (1-2*margin) margin rng
    (min (1-2*margin) (1-2*margin) * (1/1000)) nodes posl c'
    (fun nd hnd => by
      rw [hkeys nd.id]
      exact Or.inr (List.mem_map_of_mem Node.id hnd))
  refine ⟨out, ?_, hlen, hshape⟩
  rw [hmain, hinit]
  exact hnorm

/-- Witness for C10: one node with a dangling reference, `iterations = -2`. -/
theorem claim10_witness :
    ∃ out, run_layout (fun _ => 1) (fun _ => 1/2)
        [⟨"a", none, [ConnEntry.str "zzz"]⟩] (-2) 0 = .ok out ∧
      out.length = ([⟨"a", none, [ConnEntry.str "zzz"]⟩] : List Node).length ∧
      ∀ (i : ℕ) (hi : i < out.length)
        (hi2 : i < ([⟨"a", none, [ConnEntry.str "zzz"]⟩] : List Node).length),
        (out.get ⟨i, hi⟩).id
          = (([⟨"a", none, [ConnEntry.str "zzz"]⟩] : List Node).get ⟨i, hi2⟩).id ∧
        ∃ x y : ℚ, (out.get ⟨i, hi⟩).position
          = some ⟨some (.fnum x), some (.fnum y)⟩ :=
  (claim10_zero_iterations (fun _ => 1) (fun _ => 1/2)
    [⟨"a", none, [ConnEntry.str "zzz"]⟩] (-2) 0 (by norm_num) (by norm_num)).2
    (by decide)

end VirtualMap
